import Mathlib

/-!
Verification of the Orbrya "Infinite Forest" core pipeline.

This file gives a shallow embedding, in Lean 4, of the core components of the
repository and proves the specification claims about them:

* `CodeExecutor.parseStudentCode` / `extractLimitFromCondition`
  (src/engine/CodeExecutor.js) — the regex-based parameter extractor,
  embedded as deterministic matchers over `List Char` that reproduce the
  JavaScript regex semantics (leftmost match, greedy character classes,
  ordered alternation, lazy capture for the while-condition group);
* `VisualProfiler` (VisualProfiler.js) — threshold classification
  (`getHealth`), the 60-slot circular FPS history and its chronological
  read-out (`sampleMetrics` / `drawGraph`), and the metrics record whose
  `memory` field is initialised to `0`;
* `SceneController.spawnTrees` (SceneController.js) — the instanced-batch
  population rebuild;
* `InfiniteForest.validate` / `onComplete` together with the base
  `Scenario.complete` (TreeSpawner.cs bundle / Scenario.js) — the
  success check and the completion notification.

Numbers are embedded as `Nat`/`Int`/`ℚ` with exact arithmetic; JavaScript's
`parseInt` is exact for the digit strings considered here (at most 15
digits where it matters).  Message strings are embedded as an inductive
`Diag` type, one constructor per distinct source message.
-/

namespace Orbrya

/-! ### Character classes (JavaScript regex classes, ASCII range)

`\w` is `[A-Za-z0-9_]`, `\d` is `[0-9]`, `\s` covers space, tab and the
line/page terminators used by the source texts. -/

def isWordChar (c : Char) : Bool := c.isAlphanum || c = '_'

def isDigitChar (c : Char) : Bool := c.isDigit

def isSpaceChar (c : Char) : Bool :=
  c = ' ' || c = '\t' || c = '\n' || c = '\r' || c = '\x0b' || c = '\x0c'

/-- Line terminators, which JavaScript's `.` never matches. -/
def isLineTerm (c : Char) : Bool := c = '\n' || c = '\r'

/-- Greedy `\s*`. -/
def dropWs (l : List Char) : List Char := l.dropWhile isSpaceChar

/-- JavaScript `String.prototype.trim`. -/
def trimChars (l : List Char) : List Char :=
  ((l.dropWhile isSpaceChar).reverse.dropWhile isSpaceChar).reverse

/-- Greedy `\w+`: the matched run and the rest; `none` if the first char is
not a word char. -/
def takeWord (l : List Char) : Option (List Char × List Char) :=
  let w := l.takeWhile isWordChar
  if w = [] then none else some (w, l.dropWhile isWordChar)

/-- Greedy `(\d+)`. -/
def takeDigits (l : List Char) : Option (List Char × List Char) :=
  let w := l.takeWhile isDigitChar
  if w = [] then none else some (w, l.dropWhile isDigitChar)

/-- `parseInt(ds, 10)` on a digit run. -/
def digitsToNat (ds : List Char) : Nat :=
  ds.foldl (fun a c => a * 10 + (c.toNat - 48)) 0

/-- Match a literal, case-sensitively; returns the rest on success. -/
def matchLit : List Char → List Char → Option (List Char)
  | [], l => some l
  | _ :: _, [] => none
  | k :: ks, c :: l => if c = k then matchLit ks l else none

/-- Match a literal given in lower case, case-insensitively (the `i` flag);
returns the consumed original-case chars and the rest. -/
def matchLitCI : List Char → List Char → Option (List Char × List Char)
  | [], l => some ([], l)
  | _ :: _, [] => none
  | k :: ks, c :: l =>
    if c.toLower = k then
      (matchLitCI ks l).map (fun p => (c :: p.1, p.2))
    else none

/-- Leftmost-match search: try the matcher at every start position, left to
right (this is how an unanchored JavaScript regex scans the subject). -/
def scan {α : Type} (f : List Char → Option α) : List Char → Option α
  | [] => f []
  | c :: r =>
    match f (c :: r) with
    | some a => some a
    | none => scan f r

/-! ### CodeExecutor.stripComments

`code.replace(/\/\/.*$/gm, '').replace(/\/\*[\s\S]*?\*\//g, '')`:
single-line comments are removed up to (and excluding) the line terminator,
then block comments are removed up to the first closing `*/`; an unclosed
`/*` is left in place (the block regex does not match it). -/

/-- Is the head of the list a `/`? -/
def headIsSlash (l : List Char) : Bool :=
  match l with
  | c :: _ => c = '/'
  | [] => false

/-- Is the head of the list a `*`? -/
def headIsStar (l : List Char) : Bool :=
  match l with
  | c :: _ => c = '*'
  | [] => false

/-- One pass removing `//...` line comments.  The flag is `true` while
skipping the rest of a commented line (entering skip mode at a `//` also
skips the second slash, which is equivalent). -/
def stripLineAux : Bool → List Char → List Char
  | _, [] => []
  | true, c :: r =>
    if isLineTerm c then c :: stripLineAux false r else stripLineAux true r
  | false, c :: r =>
    if c = '/' && headIsSlash r then stripLineAux true r
    else c :: stripLineAux false r

/-- Rest of the input after the first `*/`, if any. -/
def findClose : List Char → Option (List Char)
  | '*' :: '/' :: r => some r
  | _ :: r => findClose r
  | [] => none

/-- One pass removing `/* ... */` block comments (non-greedy: up to the
first `*/`).  If no `*/` follows, nothing after this point can match and
the text is kept as-is.  The fuel starts at the input length, which each
step strictly decreases, so it is never exhausted. -/
def stripBlockAux : Nat → List Char → List Char
  | 0, l => l
  | _ + 1, [] => []
  | fuel + 1, c :: r =>
    if c = '/' && headIsStar r then
      match findClose r.tail with
      | some r3 => stripBlockAux fuel r3
      | none => c :: r
    else c :: stripBlockAux fuel r

def stripBlock (l : List Char) : List Char := stripBlockAux l.length l

/-- `CodeExecutor.stripComments`. -/
def stripComments (l : List Char) : List Char := stripBlock (stripLineAux false l)

/-! ### The while-condition capture

`/while\s*\(\s*(.+?)\s*\)/` — after `while`, optional whitespace and `(`,
the group `\s*(.+?)\s*\)` is matched with the backtracking order of the
JavaScript engine: the leading `\s*` is greedy (longest whitespace run
first, giving back on failure), the capture `.+?` is lazy and never crosses
a line terminator, the trailing `\s*\)` closes at the nearest `)`.  The
extractor then applies `.trim()` to the capture. -/

/-- Is the head of the list a closing parenthesis? -/
def headIsParen (l : List Char) : Bool :=
  match l with
  | c :: _ => c = ')'
  | [] => false

/-- Lazy `(.+?)\s*\)` starting at the given position: the shortest nonempty
run of non-terminator chars followed (after whitespace) by `)`. -/
def scanCond : List Char → Option (List Char)
  | [] => none
  | c :: r =>
    if isLineTerm c then none
    else if headIsParen (dropWs r) then some [c]
    else (scanCond r).map (fun b => c :: b)

/-- Greedy `\s*` before the capture, with backtracking: prefer to start the
capture after the longest whitespace run. -/
def tryStarts : List Char → Option (List Char)
  | [] => none
  | c :: r =>
    if isSpaceChar c then
      match tryStarts r with
      | some b => some b
      | none => scanCond (c :: r)
    else scanCond (c :: r)

/-- `while\s*\(\s*(.+?)\s*\)` at one position, returning the trimmed
capture (the `condition` variable of `parseStudentCode`). -/
def matchWhileAt (l : List Char) : Option (List Char) :=
  match matchLit "while".toList l with
  | none => none
  | some r =>
    match dropWs r with
    | '(' :: r2 => (tryStarts r2).map trimChars
    | _ => none

/-! ### extractLimitFromCondition

Five regexes tried in order over the whole condition string; the first one
that matches anywhere wins. -/

/-- `\w+\s*<\s*(\d+)` at one position. -/
def matchIdLt (l : List Char) : Option Nat :=
  match takeWord l with
  | none => none
  | some (_, r1) =>
    match dropWs r1 with
    | '<' :: r2 =>
      match takeDigits (dropWs r2) with
      | some p => some (digitsToNat p.1)
      | none => none
    | _ => none

/-- `\w+\s*<=\s*(\d+)` at one position. -/
def matchIdLe (l : List Char) : Option Nat :=
  match takeWord l with
  | none => none
  | some (_, r1) =>
    match dropWs r1 with
    | '<' :: '=' :: r2 =>
      match takeDigits (dropWs r2) with
      | some p => some (digitsToNat p.1)
      | none => none
    | _ => none

/-- `(\d+)\s*>\s*\w+` at one position. -/
def matchNumGt (l : List Char) : Option Nat :=
  match takeDigits l with
  | none => none
  | some (ds, r1) =>
    match dropWs r1 with
    | '>' :: r2 =>
      match takeWord (dropWs r2) with
      | some _ => some (digitsToNat ds)
      | none => none
    | _ => none

/-- `(\d+)\s*>=\s*\w+` at one position. -/
def matchNumGe (l : List Char) : Option Nat :=
  match takeDigits l with
  | none => none
  | some (ds, r1) =>
    match dropWs r1 with
    | '>' :: '=' :: r2 =>
      match takeWord (dropWs r2) with
      | some _ => some (digitsToNat ds)
      | none => none
    | _ => none

/-- `\w+\s*!=\s*(\d+)` at one position. -/
def matchIdNe (l : List Char) : Option Nat :=
  match takeWord l with
  | none => none
  | some (_, r1) =>
    match dropWs r1 with
    | '!' :: '=' :: r2 =>
      match takeDigits (dropWs r2) with
      | some p => some (digitsToNat p.1)
      | none => none
    | _ => none

/-- `CodeExecutor.extractLimitFromCondition`: `IDENT < N → N`,
`IDENT <= N → N+1`, `N > IDENT → N`, `N >= IDENT → N+1`,
`IDENT != N → N`, else `null`. -/
def extractLimitFromCondition (cond : List Char) : Option Nat :=
  match scan matchIdLt cond with
  | some n => some n
  | none =>
    match scan matchIdLe cond with
    | some n => some (n + 1)
    | none =>
      match scan matchNumGt cond with
      | some n => some n
      | none =>
        match scan matchNumGe cond with
        | some n => some (n + 1)
        | none =>
          match scan matchIdNe cond with
          | some n => some n
          | none => none

/-! ### The for-loop and assignment patterns -/

/-- Rest of the input after the first `;`, if any. -/
def skipToSemi : List Char → Option (List Char)
  | [] => none
  | ';' :: r => some r
  | _ :: r => skipToSemi r

/-- `[^;]+;`: at least one non-semicolon char, then the first `;`. -/
def splitSemi : List Char → Option (List Char)
  | [] => none
  | ';' :: _ => none
  | _ :: r => skipToSemi r

/-- `for\s*\([^;]+;\s*\w+\s*(<|<=)\s*(\d+)` at one position: returns
whether the operator was `<=` and the digit run.  The `<` alternative is
tried first by the engine, but on an `=` after the `<` it always fails at
`(\d+)`, so listing the `<=` case first is equivalent. -/
def matchForAt (l : List Char) : Option (Bool × List Char) :=
  match matchLit "for".toList l with
  | none => none
  | some r =>
    match dropWs r with
    | '(' :: r2 =>
      match splitSemi r2 with
      | none => none
      | some r3 =>
        match takeWord (dropWs r3) with
        | none => none
        | some (_, r4) =>
          match dropWs r4 with
          | '<' :: '=' :: r5 => (takeDigits (dropWs r5)).map (fun p => (true, p.1))
          | '<' :: r5 => (takeDigits (dropWs r5)).map (fun p => (false, p.1))
          | _ => none
    | _ => none

/-- `(maxTrees|treeCount|count)\s*=\s*(\d+)` with the `i` flag, at one
position: returns the keyword as matched and the digit run.  The three
alternatives start with distinct letters, so at most one can apply. -/
def matchAssignAt (l : List Char) : Option (List Char × List Char) :=
  match
    match matchLitCI "maxtrees".toList l with
    | some p => some p
    | none =>
      match matchLitCI "treecount".toList l with
      | some p => some p
      | none => matchLitCI "count".toList l
  with
  | none => none
  | some (kw, r) =>
    match dropWs r with
    | '=' :: r2 => (takeDigits (dropWs r2)).map (fun p => (kw, p.1))
    | _ => none

/-! ### ParseResult and parseStudentCode -/

/-- The diagnostic messages of `CodeExecutor`, one constructor per source
string (with interpolated values elided where they do not matter):

* `cappedForSafety` — "Capped at 1000 trees for safety" (while path);
* `infiniteLoopError` — the `while (true)` infinite-loop error;
* `safetyCapNote` — "Safety cap: spawning 1000 trees";
* `whileFalseNote` — the `while (false)` spawns-0-trees warning;
* `cantParse cond` — the unparseable-condition error, with the condition;
* `tryCondHint` — the "Try: treeCount < 50" suggestion;
* `noLoopFound` — "Couldn't find a loop or tree count.";
* `addLoopHint` — the "Add: while (treeCount < 50)" suggestion;
* `perfCritical`/`perfHigh`/`perfModerate`/`perfGood` — the four
  population-size tiers of `addPerformanceWarnings`. -/
inductive Diag : Type
  | cappedForSafety
  | infiniteLoopError
  | safetyCapNote
  | whileFalseNote
  | cantParse (cond : List Char)
  | tryCondHint
  | noLoopFound
  | addLoopHint
  | perfCritical
  | perfHigh
  | perfModerate
  | perfGood
deriving DecidableEq

/-- Which of the three source patterns matched. -/
inductive Pat : Type
  | whileP
  | forP
  | assignP
deriving DecidableEq

/-- The `ParsedCode` record produced by `parseStudentCode`. -/
structure ParseResult where
  valid : Bool
  limit : Option Nat
  condition : Option (List Char)
  pattern : Option Pat
  errors : List Diag
  warnings : List Diag
deriving DecidableEq

/-- `this.maxTreeLimit` — the safety cap for infinite loops. -/
def maxTreeLimit : Nat := 1000

/-- `CodeExecutor.addPerformanceWarnings`.  The source guard
`if (!result.limit) return` treats both `null` and `0` as falsy, so a
limit of `0` receives no tier warning. -/
def addPerformanceWarnings (r : ParseResult) : ParseResult :=
  match r.limit with
  | none => r
  | some 0 => r
  | some n =>
    if 500 < n then { r with warnings := r.warnings ++ [Diag.perfCritical] }
    else if 300 < n then { r with warnings := r.warnings ++ [Diag.perfHigh] }
    else if 175 < n then { r with warnings := r.warnings ++ [Diag.perfModerate] }
    else if n ≤ 50 then { r with warnings := r.warnings ++ [Diag.perfGood] }
    else r

/-- `CodeExecutor.parseStudentCode`: strip comments, then try the while,
for, and assignment patterns in order. -/
def parseStudentCode (code : List Char) : ParseResult :=
  let cleanCode := stripComments code
  match scan matchWhileAt cleanCode with
  | some cond =>
    let base : ParseResult :=
      { valid := false
        limit := none
        condition := some cond
        pattern := some Pat.whileP
        errors := []
        warnings := [] }
    match extractLimitFromCondition cond with
    | some n =>
      addPerformanceWarnings
        { base with
          limit := some (min n maxTreeLimit)
          valid := true
          warnings := if maxTreeLimit < n then [Diag.cappedForSafety] else [] }
    | none =>
      if cond = "true".toList then
        addPerformanceWarnings
          { base with
            limit := some maxTreeLimit
            valid := true
            errors := [Diag.infiniteLoopError]
            warnings := [Diag.safetyCapNote] }
      else if cond = "false".toList then
        addPerformanceWarnings
          { base with
            limit := some 0
            valid := true
            warnings := [Diag.whileFalseNote] }
      else
        addPerformanceWarnings
          { base with errors := [Diag.cantParse cond, Diag.tryCondHint] }
  | none =>
    match scan matchForAt cleanCode with
    | some (isLe, ds) =>
      let limit := if isLe then digitsToNat ds + 1 else digitsToNat ds
      addPerformanceWarnings
        { valid := true
          limit := some (min limit maxTreeLimit)
          condition := some (('i' :: ' ' ::
            (if isLe then ['<', '='] else ['<'])) ++ ' ' :: ds)
          pattern := some Pat.forP
          errors := []
          warnings := [] }
    | none =>
      match scan matchAssignAt cleanCode with
      | some (kw, ds) =>
        addPerformanceWarnings
          { valid := true
            limit := some (min (digitsToNat ds) maxTreeLimit)
            condition := some (kw ++ ' ' :: '=' :: ' ' :: ds)
            pattern := some Pat.assignP
            errors := []
            warnings := [] }
      | none =>
        { valid := false
          limit := none
          condition := none
          pattern := none
          errors := [Diag.noLoopFound, Diag.addLoopHint]
          warnings := [] }

/-! ### VisualProfiler: thresholds and health classification -/

structure Thresholds where
  green : Int
  yellow : Int
deriving DecidableEq

structure ProfilerThresholds where
  fps : Thresholds
  memory : Thresholds
  drawCalls : Thresholds
deriving DecidableEq

/-- The `this.thresholds` defaults of the VisualProfiler constructor. -/
def defaultThresholds : ProfilerThresholds :=
  { fps := { green := 45, yellow := 30 }
    memory := { green := 300, yellow := 350 }
    drawCalls := { green := 50, yellow := 80 } }

inductive Band : Type
  | healthy
  | warning
  | critical
deriving DecidableEq

/-- The `{ c, i, l }` record returned by `getHealth` (class, icon, label). -/
structure Health where
  c : Band
  i : String
  l : String
deriving DecidableEq

inductive MetricKind : Type
  | fps
  | memory
  | drawCalls
deriving DecidableEq

/-- `VisualProfiler.getHealth`: FPS is classified "higher is better"
(`value ≥ green → healthy`, `value ≥ yellow → warning`, else critical);
memory and draw calls are classified "lower is better" (`value < green →
healthy`, `value < yellow → warning`, else critical). -/
def getHealth (th : ProfilerThresholds) (metric : MetricKind) (value : Int) : Health :=
  match metric with
  | MetricKind.fps =>
    let t := th.fps
    if t.green ≤ value then { c := Band.healthy, i := "✅", l := "Excellent" }
    else if t.yellow ≤ value then { c := Band.warning, i := "⚠️", l := "Moderate" }
    else { c := Band.critical, i := "❌", l := "Poor" }
  | MetricKind.memory =>
    let t := th.memory
    if value < t.green then { c := Band.healthy, i := "✅", l := "Good" }
    else if value < t.yellow then { c := Band.warning, i := "⚠️", l := "Warning" }
    else { c := Band.critical, i := "❌", l := "Critical" }
  | MetricKind.drawCalls =>
    let t := th.drawCalls
    if value < t.green then { c := Band.healthy, i := "✅", l := "Good" }
    else if value < t.yellow then { c := Band.warning, i := "⚠️", l := "Warning" }
    else { c := Band.critical, i := "❌", l := "Critical" }

/-! ### VisualProfiler: metrics and the circular FPS history -/

/-- The `this.metrics` record.  The `memory` field is embedded over the
JavaScript number-or-null domain as `Option Int` so that a `null` report
would be representable; the constructor initialises it to `0` (`some 0`),
not to `null`. -/
structure Metrics where
  fps : Int
  frameTime : ℚ
  memory : Option Int
  drawCalls : Int
  triangles : Int
  geometries : Int
deriving DecidableEq

def initMetrics : Metrics :=
  { fps := 60
    frameTime := 16.67
    memory := some 0
    drawCalls := 0
    triangles := 0
    geometries := 0 }

structure ProfilerState where
  thresholds : ProfilerThresholds
  metrics : Metrics
  fpsHistory : List Int
  historyIndex : Nat
  frameCount : Nat
  graphUpdateCounter : Nat
deriving DecidableEq

/-- The VisualProfiler constructor state:
`fpsHistory = new Array(60).fill(60)`, `historyIndex = 0`. -/
def initProfilerState : ProfilerState :=
  { thresholds := defaultThresholds
    metrics := initMetrics
    fpsHistory := List.replicate 60 60
    historyIndex := 0
    frameCount := 0
    graphUpdateCounter := 0 }

/-- The per-frame hook `update()`: increments the frame counter only. -/
def frameUpdate (s : ProfilerState) : ProfilerState :=
  { s with frameCount := s.frameCount + 1 }

/-- Host inputs of one `sampleMetrics()` call: whether wall-clock time has
advanced (`elapsed > 0`), the value `Math.round(frameCount / elapsed *
1000)` computed from it, the renderer counters (calls, triangles,
geometries) if a renderer is attached, and the rounded heap megabytes if
the host exposes `performance.memory`. -/
structure SampleInput where
  elapsedPos : Bool
  fps : Int
  rendererInfo : Option (Int × Int × Int)
  heapMB : Option Int

/-- The FPS branch of `sampleMetrics` (under `elapsed > 0`): store the new
FPS, reset the frame counter, write into the circular buffer at the cursor
and advance the cursor modulo 60. -/
def recordFps (s : ProfilerState) (fps : Int) : ProfilerState :=
  { s with
    metrics := { s.metrics with fps := fps }
    frameCount := 0
    fpsHistory := s.fpsHistory.set s.historyIndex fps
    historyIndex := (s.historyIndex + 1) % 60 }

/-- `VisualProfiler.sampleMetrics` (the DOM update in `updateUI` is
outside the model; the graph cadence counter lives there too). -/
def sampleMetrics (s : ProfilerState) (inp : SampleInput) : ProfilerState :=
  let s1 := if inp.elapsedPos then recordFps s inp.fps else s
  let s2 :=
    match inp.rendererInfo with
    | some info =>
      { s1 with metrics :=
          { s1.metrics with
            drawCalls := info.1
            triangles := info.2.1
            geometries := info.2.2 } }
    | none => s1
  match inp.heapMB with
  | some mb => { s2 with metrics := { s2.metrics with memory := some mb } }
  | none => s2

/-- The chronological read used by `drawGraph`:
`fpsHistory[(historyIndex + i) % 60]` for `i = 0 … 59`. -/
def historyChronological (s : ProfilerState) : List Int :=
  (List.range 60).map (fun i => s.fpsHistory.getD ((s.historyIndex + i) % 60) 0)

/-! ### SceneController.spawnTrees -/

/-- A per-instance transform written by `setMatrixAt`.  The rotation is
stored in turns (the source radian value divided by `2π`), keeping the
embedding inside `ℚ`. -/
structure TreeTransform where
  x : ℚ
  y : ℚ
  z : ℚ
  scale : ℚ
  rotationTurns : ℚ
deriving DecidableEq

/-- A `THREE.InstancedMesh` batch: its instance capacity, the transforms
set so far, and whether it is in the scene / has been disposed. -/
structure InstancedBatch where
  capacity : Nat
  matrices : Nat → Option TreeTransform
  inScene : Bool
  disposed : Bool

structure SceneState where
  currentTreeCount : Int
  treeInstancedMesh : Option (InstancedBatch × InstancedBatch)

inductive SpawnError : Type
  /-- `new Float32Array(count * 16)` inside the `InstancedMesh`
  constructor throws a `RangeError` for a negative count. -/
  | rangeError
deriving DecidableEq

/-- The cleanup block at the top of `spawnTrees`: remove the previous
batches from the scene and dispose their geometry and material.  The stale
reference in `treeInstancedMesh` is kept — the field is only reassigned at
the end of a successful spawn. -/
def cleanupTrees (s : SceneState) : SceneState :=
  match s.treeInstancedMesh with
  | none => s
  | some tf =>
    let trunk := { tf.1 with inScene := false, disposed := true }
    let foliage := { tf.2 with inScene := false, disposed := true }
    { s with treeInstancedMesh := some (trunk, foliage) }

/-- The placement loop of `spawnTrees`: for each `i < count` draw a random
position in the `spreadRadius = 45` square, a random scale in
`[0.7, 1.3)` and a random rotation, and set both the trunk matrix (at
height 1) and the foliage matrix (at height `3.5 * scale`) for index `i`.
`rand` supplies the `Math.random()` stream, four draws per iteration. -/
def spawnLoop (rand : Nat → ℚ) (count : Nat) :
    (Nat → Option TreeTransform) × (Nat → Option TreeTransform) :=
  (List.range count).foldl
    (fun tf i =>
      let x := (rand (4 * i) - 1 / 2) * 45 * 2
      let z := (rand (4 * i + 1) - 1 / 2) * 45 * 2
      let scale := 7 / 10 + rand (4 * i + 2) * (3 / 5)
      let rot := rand (4 * i + 3)
      (fun j => if j = i then
          some { x := x, y := 1, z := z, scale := scale, rotationTurns := rot }
        else tf.1 j,
       fun j => if j = i then
          some { x := x, y := (7 / 2) * scale, z := z, scale := scale, rotationTurns := rot }
        else tf.2 j))
    (fun _ => none, fun _ => none)

/-- `SceneController.spawnTrees`: clean up the previous batches, allocate
the two instanced batches sized to `count`, run the placement loop, add
both to the scene and only then update `currentTreeCount`.  Allocation of
an instanced batch with a negative count throws (`RangeError` from the
typed-array allocation inside `THREE.InstancedMesh`), after the cleanup
has already run; the returned state is the state at the throw point. -/
def spawnTrees (rand : Nat → ℚ) (s : SceneState) (count : Int) :
    SceneState × Option SpawnError :=
  let s1 := cleanupTrees s
  if count < 0 then (s1, some SpawnError.rangeError)
  else
    let n := count.toNat
    let mats := spawnLoop rand n
    let trunk : InstancedBatch :=
      { capacity := n, matrices := mats.1, inScene := true, disposed := false }
    let foliage : InstancedBatch :=
      { capacity := n, matrices := mats.2, inScene := true, disposed := false }
    ({ currentTreeCount := count, treeInstancedMesh := some (trunk, foliage) }, none)

/-- Draw calls attributable to the tree population: one per instanced mesh
currently in the scene. -/
def populationDrawCalls (s : SceneState) : Nat :=
  match s.treeInstancedMesh with
  | none => 0
  | some tf =>
    (if tf.1.inScene then 1 else 0) + (if tf.2.inScene then 1 else 0)

/-! ### InfiniteForest.validate / onComplete and Scenario.complete -/

/-- JavaScript `x || d` on an optional number: `null`/`undefined` and `0`
are falsy and fall through to the default. -/
def jsOrInt (x : Option Int) (d : Int) : Int :=
  match x with
  | none => d
  | some v => if v = 0 then d else v

structure RangeCfg where
  min : Option Int
  max : Option Int
deriving DecidableEq

/-- The shape of `this.validation` as read by `validate()`: each field may
be missing in a loaded configuration. -/
structure ValidationCfg where
  targetFPS : Option Int
  acceptableRange : Option RangeCfg
deriving DecidableEq

/-- The `_defaults` record of the InfiniteForest constructor. -/
structure IFDefaults where
  initialTreeCount : Int
  targetTreeCount : Int
  acceptableRangeMin : Int
  acceptableRangeMax : Int
  targetFPS : Int
  minimumFPS : Int
deriving DecidableEq

def ifDefaults : IFDefaults :=
  { initialTreeCount := 300
    targetTreeCount := 50
    acceptableRangeMin := 10
    acceptableRangeMax := 175
    targetFPS := 45
    minimumFPS := 30 }

/-- The base-class `this.state` strings. -/
inductive ScenState : Type
  | idle
  | broken
  | inspecting
  | fixed
  | complete
deriving DecidableEq

/-- `this.session` of InfiniteForest (the fields the validation and
completion paths touch). -/
structure IFSession where
  attempts : Nat
  hintsShown : Nat
  hintsRevealed : List Nat
  startTime : Int
  checkpoints : List String
  completed : Bool
  fpsBefore : Option Int
  fpsAfter : Option Int
deriving DecidableEq

/-- The record handed to the base `onComplete` callback by
`Scenario.complete` — the completion notification forwarded to the
progress collaborator. -/
structure CompletionRecord where
  success : Bool
  duration : Int
  attempts : Nat
deriving DecidableEq

/-- The differentiated failure messages of `_showFeedback`. -/
inductive FeedbackKind : Type
  | tooManyAndSlow
  | stillSlow
  | tooFew
  | tooMany
  | generic
deriving DecidableEq

/-- The combined scenario state: base-class fields (`scen`, `baseAttempts`,
`baseStartTime`, `completionTime`), the InfiniteForest session, and the
observable effects (records emitted through the `onComplete` callback,
progress saves, feedback log, overlay and hint-timer status). -/
structure IFState where
  scen : ScenState
  validation : Option ValidationCfg
  session : IFSession
  metricsFpsAfter : Option Int
  baseAttempts : Nat
  baseStartTime : Int
  completionTime : Option Int
  hintTimersActive : Bool
  successOverlayShown : Bool
  records : List CompletionRecord
  progressSaves : Nat
  feedback : List FeedbackKind
deriving DecidableEq

/-- `this.validation?.targetFPS || this._defaults.targetFPS`. -/
def resolvedTargetFPS (st : IFState) : Int :=
  jsOrInt (st.validation.bind (fun v => v.targetFPS)) ifDefaults.targetFPS

/-- `this.validation?.acceptableRange?.min || defaults`. -/
def resolvedMinTrees (st : IFState) : Int :=
  jsOrInt ((st.validation.bind (fun v => v.acceptableRange)).bind (fun r => r.min))
    ifDefaults.acceptableRangeMin

/-- `this.validation?.acceptableRange?.max || defaults`. -/
def resolvedMaxTrees (st : IFState) : Int :=
  jsOrInt ((st.validation.bind (fun v => v.acceptableRange)).bind (fun r => r.max))
    ifDefaults.acceptableRangeMax

/-- Host environment of one `validate()` call: the current profiler FPS
sample and scene tree count (absent if the collaborator is missing), the
wall clock, and whether the progress trackers are reachable. -/
structure ValidateEnv where
  profilerFps : Option Int
  sceneTreeCount : Option Int
  now : Int
  progressAvailable : Bool
deriving DecidableEq

/-- `_markCheckpoint`: first write wins; re-reaching is a no-op. -/
def markCheckpoint (id : String) (st : IFState) : IFState :=
  if id ∈ st.session.checkpoints then st
  else { st with session :=
    { st.session with checkpoints := st.session.checkpoints ++ [id] } }

/-- `Scenario.complete(success)` (the base class): unconditionally set the
state to `complete`, record the completion time and fire the `onComplete`
callback with the completion record. -/
def completeBase (success : Bool) (now : Int) (st : IFState) : IFState :=
  { st with
    scen := ScenState.complete
    completionTime := some now
    records := st.records ++
      [{ success := success
         duration := now - st.baseStartTime
         attempts := st.baseAttempts }] }

/-- `InfiniteForest.onComplete`: mark the session completed, mark the
checkpoint, stop the hint timers, show the success overlay, call the base
`complete(true)`, and save progress when the trackers are available. -/
def onCompleteIF (env : ValidateEnv) (st : IFState) : IFState :=
  let st1 := { st with session := { st.session with completed := true } }
  let st2 := markCheckpoint "scenario_complete" st1
  let st3 := { st2 with hintTimersActive := false }
  let st4 := { st3 with successOverlayShown := true }
  let st5 := completeBase true env.now st4
  if env.progressAvailable then { st5 with progressSaves := st5.progressSaves + 1 }
  else st5

/-- `_showFeedback`: the differentiated failure message. -/
def feedbackFor (fps treeCount targetFPS minTrees maxTrees : Int) : FeedbackKind :=
  if fps < targetFPS ∧ maxTrees < treeCount then FeedbackKind.tooManyAndSlow
  else if fps < targetFPS then FeedbackKind.stillSlow
  else if treeCount < minTrees then FeedbackKind.tooFew
  else if maxTrees < treeCount then FeedbackKind.tooMany
  else FeedbackKind.generic

/-- The object returned by `validate()`. -/
structure ValidateOutcome where
  success : Bool
  fps : Int
  treeCount : Int
  targetFPS : Int
  improvement : Int
deriving DecidableEq

/-- `InfiniteForest.validate`: read the current FPS and tree count (with
the `|| 0` fallbacks), resolve the thresholds, record `fpsAfter`, and
declare success iff `fps >= targetFPS` and `minTrees <= treeCount <=
maxTrees`; on success mark the checkpoints and run `onComplete`, otherwise
log the differentiated feedback. -/
def validateIF (env : ValidateEnv) (st : IFState) : IFState × ValidateOutcome :=
  let fps := jsOrInt env.profilerFps 0
  let treeCount := jsOrInt env.sceneTreeCount 0
  let targetFPS := resolvedTargetFPS st
  let minTrees := resolvedMinTrees st
  let maxTrees := resolvedMaxTrees st
  let st1 := { st with
    session := { st.session with fpsAfter := some fps }
    metricsFpsAfter := some fps }
  let fpsPass := decide (targetFPS ≤ fps)
  let treeCountPass := decide (minTrees ≤ treeCount) && decide (treeCount ≤ maxTrees)
  let success := fpsPass && treeCountPass
  let out : ValidateOutcome :=
    { success := success
      fps := fps
      treeCount := treeCount
      targetFPS := targetFPS
      improvement := fps - jsOrInt st.session.fpsBefore 10 }
  if success then
    (onCompleteIF env (markCheckpoint "tree_count_valid" (markCheckpoint "fps_improved" st1)),
     out)
  else
    ({ st1 with feedback :=
        st1.feedback ++ [feedbackFor fps treeCount targetFPS minTrees maxTrees] },
     out)

/-! ### Concrete fixtures used by witnesses and counterexamples -/

/-- A fixed stand-in for the `Math.random()` stream. -/
def demoRand : Nat → ℚ := fun _ => 1 / 2

/-- A live batch of capacity 25 with every matrix set, as `spawnTrees 25`
would leave it. -/
def demoBatch : InstancedBatch :=
  { capacity := 25
    matrices := fun j => if j < 25 then
        some { x := 0, y := 1, z := 0, scale := 1, rotationTurns := 0 }
      else none
    inScene := true
    disposed := false }

/-- A scene holding a previously spawned population of 25 trees. -/
def demoScene : SceneState :=
  { currentTreeCount := 25, treeInstancedMesh := some (demoBatch, demoBatch) }

/-- A validation environment in which the fix succeeded: 60 FPS, 50 trees,
default thresholds. -/
def demoEnv : ValidateEnv :=
  { profilerFps := some 60, sceneTreeCount := some 50, now := 7, progressAvailable := false }

/-- A session in the `fixed` state, one attempt made, nothing completed. -/
def demoSession : IFSession :=
  { attempts := 1
    hintsShown := 0
    hintsRevealed := []
    startTime := 0
    checkpoints := []
    completed := false
    fpsBefore := some 12
    fpsAfter := none }

/-- A scenario state right after a fix was applied, before validation. -/
def demoSt : IFState :=
  { scen := ScenState.fixed
    validation := none
    session := demoSession
    metricsFpsAfter := none
    baseAttempts := 0
    baseStartTime := 0
    completionTime := none
    hintTimersActive := true
    successOverlayShown := false
    records := []
    progressSaves := 0
    feedback := [] }

/-! ## Helper lemmas -/

theorem addPerformanceWarnings_limit (r : ParseResult) :
    (addPerformanceWarnings r).limit = r.limit := by
  unfold addPerformanceWarnings
  rcases hr : r.limit with _ | (_ | n) <;> simp only [hr] <;>
    split_ifs <;> simp [hr]

theorem addPerformanceWarnings_valid (r : ParseResult) :
    (addPerformanceWarnings r).valid = r.valid := by
  unfold addPerformanceWarnings
  rcases hr : r.limit with _ | (_ | n) <;> simp only [hr] <;>
    split_ifs <;> simp [hr]

theorem addPerformanceWarnings_errors (r : ParseResult) :
    (addPerformanceWarnings r).errors = r.errors := by
  unfold addPerformanceWarnings
  rcases hr : r.limit with _ | (_ | n) <;> simp only [hr] <;>
    split_ifs <;> simp [hr]

/-- `addPerformanceWarnings` only ever appends tier warnings. -/
theorem addPerformanceWarnings_warnings_mem (r : ParseResult) (d : Diag)
    (hd : d ∈ r.warnings) : d ∈ (addPerformanceWarnings r).warnings := by
  unfold addPerformanceWarnings
  rcases hr : r.limit with _ | (_ | n) <;> simp only [hr] <;> try exact hd
  split_ifs <;> simp [hd]

theorem markCheckpoint_scen (id : String) (st : IFState) :
    (markCheckpoint id st).scen = st.scen := by
  unfold markCheckpoint; split_ifs <;> rfl

theorem markCheckpoint_records (id : String) (st : IFState) :
    (markCheckpoint id st).records = st.records := by
  unfold markCheckpoint; split_ifs <;> rfl

theorem markCheckpoint_completed (id : String) (st : IFState) :
    (markCheckpoint id st).session.completed = st.session.completed := by
  unfold markCheckpoint; split_ifs <;> rfl

theorem onCompleteIF_scen (env : ValidateEnv) (st : IFState) :
    (onCompleteIF env st).scen = ScenState.complete := by
  simp only [onCompleteIF, completeBase, markCheckpoint]
  split_ifs <;> rfl

theorem onCompleteIF_completed (env : ValidateEnv) (st : IFState) :
    (onCompleteIF env st).session.completed = true := by
  simp only [onCompleteIF, completeBase, markCheckpoint]
  split_ifs <;> rfl

theorem onCompleteIF_records_length (env : ValidateEnv) (st : IFState) :
    (onCompleteIF env st).records.length = st.records.length + 1 := by
  simp only [onCompleteIF, completeBase, markCheckpoint]
  split_ifs <;> simp

/-! ## C3 — health classification -/

/-- C3: health classification is asymmetric per metric.  For FPS (higher
is better) the band is healthy iff `green ≤ value`, warning iff the green
test fails but `yellow ≤ value`, critical otherwise; for draw calls and
memory (lower is better) the band is healthy iff `value < green`, warning
iff `green ≤ value < yellow`, critical otherwise.  With the default
thresholds (fps green 45 / yellow 30, drawCalls green 50): fps 45 is
healthy, 44 warning, 29 critical; drawCalls 49 healthy, 50 warning. -/
theorem getHealth_asymmetric_classification :
    (∀ (th : ProfilerThresholds) (v : Int),
      ((getHealth th MetricKind.fps v).c = Band.healthy ↔ th.fps.green ≤ v)
      ∧ ((getHealth th MetricKind.fps v).c = Band.warning ↔
          v < th.fps.green ∧ th.fps.yellow ≤ v)
      ∧ ((getHealth th MetricKind.fps v).c = Band.critical ↔
          v < th.fps.green ∧ v < th.fps.yellow))
    ∧ (∀ (th : ProfilerThresholds) (v : Int),
      ((getHealth th MetricKind.drawCalls v).c = Band.healthy ↔ v < th.drawCalls.green)
      ∧ ((getHealth th MetricKind.drawCalls v).c = Band.warning ↔
          th.drawCalls.green ≤ v ∧ v < th.drawCalls.yellow)
      ∧ ((getHealth th MetricKind.drawCalls v).c = Band.critical ↔
          th.drawCalls.green ≤ v ∧ th.drawCalls.yellow ≤ v))
    ∧ (∀ (th : ProfilerThresholds) (v : Int),
      ((getHealth th MetricKind.memory v).c = Band.healthy ↔ v < th.memory.green)
      ∧ ((getHealth th MetricKind.memory v).c = Band.warning ↔
          th.memory.green ≤ v ∧ v < th.memory.yellow)
      ∧ ((getHealth th MetricKind.memory v).c = Band.critical ↔
          th.memory.green ≤ v ∧ th.memory.yellow ≤ v))
    ∧ (getHealth defaultThresholds MetricKind.fps 45).c = Band.healthy
    ∧ (getHealth defaultThresholds MetricKind.fps 44).c = Band.warning
    ∧ (getHealth defaultThresholds MetricKind.fps 29).c = Band.critical
    ∧ (getHealth defaultThresholds MetricKind.drawCalls 49).c = Band.healthy
    ∧ (getHealth defaultThresholds MetricKind.drawCalls 50).c = Band.warning := by
  refine ⟨?_, ?_, ?_, by decide, by decide, by decide, by decide, by decide⟩ <;>
    (intro th v
     simp only [getHealth]
     split_ifs with h1 h2 <;> simp_all <;> omega)

/-! ## C8 — heap field when introspection is unavailable -/

/-- C8 counterexample: with no heap introspection available, a produced
sample reports the heap field as `0` (`some 0`) — it is not `null`
(`none`), so consumers cannot distinguish "unavailable" from
"zero megabytes". -/
theorem heap_unavailable_reports_zero :
    (sampleMetrics initProfilerState
      { elapsedPos := true, fps := 60, rendererInfo := some (2, 150, 2),
        heapMB := none }).metrics.memory = some 0
    ∧ (sampleMetrics initProfilerState
      { elapsedPos := true, fps := 60, rendererInfo := some (2, 150, 2),
        heapMB := none }).metrics.memory ≠ none := by
  refine ⟨rfl, ?_⟩
  intro h
  rw [show (sampleMetrics initProfilerState
      { elapsedPos := true, fps := 60, rendererInfo := some (2, 150, 2),
        heapMB := none }).metrics.memory = some 0 from rfl] at h
  cases h

/-- C8 amended: when the host does not expose heap introspection the
sampler leaves the `memory` field unchanged rather than writing `null`;
since the constructor initialises it to `0`, the field reads `0`
indefinitely, and once it holds a number it never becomes `null` — so
"unavailable" is reported as `0`, not as a value distinct from `0`. -/
theorem heap_unavailable_keeps_previous_value :
    initMetrics.memory = some 0
    ∧ (∀ (s : ProfilerState) (inp : SampleInput), inp.heapMB = none →
        (sampleMetrics s inp).metrics.memory = s.metrics.memory)
    ∧ (∀ (s : ProfilerState) (inp : SampleInput),
        s.metrics.memory ≠ none → (sampleMetrics s inp).metrics.memory ≠ none) := by
  refine ⟨rfl, ?_, ?_⟩
  · intro s inp h
    unfold sampleMetrics
    rw [h]
    rcases inp.rendererInfo with _ | info <;> split_ifs <;> simp [recordFps]
  · intro s inp h
    unfold sampleMetrics
    rcases hh : inp.heapMB with _ | mb
    · rcases inp.rendererInfo with _ | info <;> split_ifs <;> simp_all [recordFps]
    · rcases inp.rendererInfo with _ | info <;> split_ifs <;> simp

/-! ## C1 — validate() success criterion -/

/-- C1: `validate()` declares success iff both the sampled FPS meets the
resolved `targetFPS` and the tree count lies in the resolved inclusive
range; when either conjunct fails the scenario does not complete (state,
completion records and the session `completed` flag are untouched), and on
success the scenario transitions to `complete`. -/
theorem validate_success_iff_thresholds (env : ValidateEnv) (st : IFState) :
    ((validateIF env st).2.success = true ↔
      (resolvedTargetFPS st ≤ jsOrInt env.profilerFps 0
        ∧ resolvedMinTrees st ≤ jsOrInt env.sceneTreeCount 0
        ∧ jsOrInt env.sceneTreeCount 0 ≤ resolvedMaxTrees st))
    ∧ ((validateIF env st).2.success = false →
        ((validateIF env st).1.scen = st.scen
          ∧ (validateIF env st).1.records = st.records
          ∧ (validateIF env st).1.session.completed = st.session.completed))
    ∧ ((validateIF env st).2.success = true →
        ((validateIF env st).1.scen = ScenState.complete
          ∧ (validateIF env st).1.session.completed = true)) := by
  by_cases hc : (resolvedTargetFPS st ≤ jsOrInt env.profilerFps 0
      ∧ resolvedMinTrees st ≤ jsOrInt env.sceneTreeCount 0
      ∧ jsOrInt env.sceneTreeCount 0 ≤ resolvedMaxTrees st)
  · have hb : (decide (resolvedTargetFPS st ≤ jsOrInt env.profilerFps 0)
        && (decide (resolvedMinTrees st ≤ jsOrInt env.sceneTreeCount 0)
          && decide (jsOrInt env.sceneTreeCount 0 ≤ resolvedMaxTrees st))) = true := by
      simp only [Bool.and_eq_true, decide_eq_true_eq]
      exact ⟨hc.1, hc.2.1, hc.2.2⟩
    have hs : (validateIF env st).2.success = true := by
      simp only [validateIF, hb]
      split <;> rfl
    have hscen : (validateIF env st).1.scen = ScenState.complete
        ∧ (validateIF env st).1.session.completed = true := by
      simp only [validateIF, hb, eq_self_iff_true, if_true]
      exact ⟨onCompleteIF_scen _ _, onCompleteIF_completed _ _⟩
    exact ⟨iff_of_true hs hc,
      fun hf => absurd (hs.symm.trans hf) (by decide),
      fun _ => hscen⟩
  · have hb : (decide (resolvedTargetFPS st ≤ jsOrInt env.profilerFps 0)
        && (decide (resolvedMinTrees st ≤ jsOrInt env.sceneTreeCount 0)
          && decide (jsOrInt env.sceneTreeCount 0 ≤ resolvedMaxTrees st))) = false := by
      rw [Bool.eq_false_iff]
      intro hb'
      exact hc (by simpa [Bool.and_eq_true, decide_eq_true_eq] using hb')
    have hs : (validateIF env st).2.success = false := by
      simp only [validateIF, hb]
      split <;> rfl
    have hstate : (validateIF env st).1.scen = st.scen
        ∧ (validateIF env st).1.records = st.records
        ∧ (validateIF env st).1.session.completed = st.session.completed := by
      simp only [validateIF, hb]
      split
      · simp_all
      · exact ⟨rfl, rfl, rfl⟩
    exact ⟨iff_of_false (by simp [hs]) hc,
      fun _ => hstate,
      fun ht => absurd (hs.symm.trans ht) (by decide)⟩

/-- C1 witness: in the demo environment (60 FPS, 50 trees, default
thresholds) validation succeeds and the scenario completes. -/
theorem validate_success_iff_thresholds_witness :
    (validateIF demoEnv demoSt).2.success = true
    ∧ (validateIF demoEnv demoSt).1.scen = ScenState.complete := by
  have h := validate_success_iff_thresholds demoEnv demoSt
  have hs : (validateIF demoEnv demoSt).2.success = true := h.1.mpr (by decide)
  exact ⟨hs, (h.2.2 hs).1⟩

/-! ## C9 — completion records are emitted per successful call -/

/-- C9 counterexample: after a successful validation, calling `validate()`
a second time emits a second completion record — starting from a fresh
session with no records, two successive `validate()` calls in the same
(successful) environment leave two records, not one. -/
theorem validate_twice_emits_two_records :
    demoSt.records.length = 0
    ∧ (validateIF demoEnv demoSt).2.success = true
    ∧ (validateIF demoEnv (validateIF demoEnv demoSt).1).1.records.length = 2 := by
  refine ⟨rfl, by decide, by decide⟩

/-- C9 amended: each successful `validate()` call emits exactly one
completion record through the base `complete` → `onComplete` callback; the
`session.completed` flag is set but never consulted, so a second call
after success emits a second record rather than being suppressed. -/
theorem validate_success_appends_one_record (env : ValidateEnv) (st : IFState)
    (h : (validateIF env st).2.success = true) :
    (validateIF env st).1.records.length = st.records.length + 1 := by
  have hb : (decide (resolvedTargetFPS st ≤ jsOrInt env.profilerFps 0)
      && (decide (resolvedMinTrees st ≤ jsOrInt env.sceneTreeCount 0)
        && decide (jsOrInt env.sceneTreeCount 0 ≤ resolvedMaxTrees st))) = true := by
    by_contra hb'
    rw [Bool.not_eq_true] at hb'
    have hf : (validateIF env st).2.success = false := by
      simp only [validateIF, hb']
      split <;> rfl
    exact absurd (hf.symm.trans h) (by decide)
  simp only [validateIF, hb, eq_self_iff_true, if_true]
  rw [onCompleteIF_records_length, markCheckpoint_records, markCheckpoint_records]

/-- C9 amended witness. -/
theorem validate_success_appends_one_record_witness :
    (validateIF demoEnv demoSt).1.records.length = demoSt.records.length + 1 :=
  validate_success_appends_one_record demoEnv demoSt (by decide)

/-! ## C5 — population invariant of spawnTrees -/

/-- After `spawnTrees` on a nonnegative count the loop has set every index
below `n` in both batches. -/
theorem spawnLoop_isSome (rand : Nat → ℚ) :
    ∀ n : Nat, ∀ i : Nat, i < n →
      ((spawnLoop rand n).1 i).isSome ∧ ((spawnLoop rand n).2 i).isSome := by
  intro n
  induction n with
  | zero => intro i h; omega
  | succ n ih =>
    intro i h
    have hstep : spawnLoop rand (n + 1) =
        (fun j => if j = n then
            some { x := (rand (4 * n) - 1 / 2) * 45 * 2, y := 1,
                   z := (rand (4 * n + 1) - 1 / 2) * 45 * 2,
                   scale := 7 / 10 + rand (4 * n + 2) * (3 / 5),
                   rotationTurns := rand (4 * n + 3) }
          else (spawnLoop rand n).1 j,
         fun j => if j = n then
            some { x := (rand (4 * n) - 1 / 2) * 45 * 2,
                   y := (7 / 2) * (7 / 10 + rand (4 * n + 2) * (3 / 5)),
                   z := (rand (4 * n + 1) - 1 / 2) * 45 * 2,
                   scale := 7 / 10 + rand (4 * n + 2) * (3 / 5),
                   rotationTurns := rand (4 * n + 3) }
          else (spawnLoop rand n).2 j) := by
      simp only [spawnLoop, List.range_succ, List.foldl_append, List.foldl_cons,
        List.foldl_nil]
    rcases Nat.lt_or_ge i n with hi | hi
    · have := ih i hi
      rw [hstep]
      simpa [Nat.ne_of_lt hi] using this
    · have hin : i = n := by omega
      rw [hstep]
      simp [hin]

/-- C5: for every `N ≥ 0`, `spawnTrees N` succeeds and leaves the
authoritative count equal to `N`, exactly two live instanced batches
(trunk and foliage) each of capacity `N` in the scene (so the population
costs a constant 2 draw calls, independent of `N`), with the transform of
every instance index `0 … N-1` set in both batches; the new count and the
new batches become visible in the same resulting state (the count is
written only after both batches are built). -/
theorem spawnTrees_population_invariant (rand : Nat → ℚ) (s : SceneState) (n : Nat) :
    ∃ trunk foliage : InstancedBatch,
      spawnTrees rand s (n : Int) =
        ({ currentTreeCount := (n : Int), treeInstancedMesh := some (trunk, foliage) }, none)
      ∧ trunk.capacity = n ∧ foliage.capacity = n
      ∧ trunk.inScene = true ∧ foliage.inScene = true
      ∧ trunk.disposed = false ∧ foliage.disposed = false
      ∧ (∀ i : Nat, i < n → (trunk.matrices i).isSome ∧ (foliage.matrices i).isSome)
      ∧ populationDrawCalls (spawnTrees rand s (n : Int)).1 = 2 := by
  have hneg : ¬ ((n : Int) < 0) := by exact_mod_cast Int.not_lt.mpr (Int.ofNat_nonneg n)
  refine ⟨{ capacity := (n : Int).toNat, matrices := (spawnLoop rand (n : Int).toNat).1,
            inScene := true, disposed := false },
          { capacity := (n : Int).toNat, matrices := (spawnLoop rand (n : Int).toNat).2,
            inScene := true, disposed := false }, ?_, ?_, ?_, rfl, rfl, rfl, rfl, ?_, ?_⟩
  · simp [spawnTrees, hneg]
  · simp
  · simp
  · intro i hi
    have : i < (n : Int).toNat := by simpa using hi
    exact spawnLoop_isSome rand _ i this
  · simp [spawnTrees, hneg, populationDrawCalls]

/-- C5 witness: a concrete spawn of 3 trees. -/
theorem spawnTrees_population_invariant_witness :
    (spawnTrees demoRand demoScene ((3 : Nat) : Int)).2 = none
    ∧ (spawnTrees demoRand demoScene ((3 : Nat) : Int)).1.currentTreeCount = ((3 : Nat) : Int)
    ∧ populationDrawCalls (spawnTrees demoRand demoScene ((3 : Nat) : Int)).1 = 2 := by
  obtain ⟨t, f, heq, -, -, -, -, -, -, -, hdc⟩ :=
    spawnTrees_population_invariant demoRand demoScene 3
  refine ⟨?_, ?_, hdc⟩
  · rw [heq]
  · rw [heq]

/-! ## C6 — failure semantics of spawnTrees -/

/-- C6 counterexample: a mutation whose allocation fails (negative target
count) does mutate state — starting from a live population of 25 trees,
`spawnTrees (-1)` reports the error, but the prior batches have already
been removed from the scene and disposed, so the prior population is not
left intact and renderable (the population's draw-call contribution drops
from 2 to 0). -/
theorem spawn_failure_mutates_prior_population :
    populationDrawCalls demoScene = 2
    ∧ (spawnTrees demoRand demoScene (-1)).2 = some SpawnError.rangeError
    ∧ ∃ tf, (spawnTrees demoRand demoScene (-1)).1.treeInstancedMesh = some tf
        ∧ tf.1.disposed = true ∧ tf.2.disposed = true
        ∧ tf.1.inScene = false ∧ tf.2.inScene = false
    ∧ populationDrawCalls (spawnTrees demoRand demoScene (-1)).1 = 0 := by
  refine ⟨rfl, rfl, ?_⟩
  refine ⟨({ demoBatch with inScene := false, disposed := true },
           { demoBatch with inScene := false, disposed := true }), rfl, rfl, rfl, rfl, rfl, rfl⟩

/-- C6 amended: when allocation fails (negative count) the error is
reported (the `RangeError` propagates to the caller's error channel) and
the authoritative count keeps its prior value, but the cleanup step has
already run: the prior batches are removed from the scene and disposed
before allocation is attempted, so the prior population is not preserved
renderable. -/
theorem spawnTrees_negative_reports_and_preserves_count (rand : Nat → ℚ)
    (s : SceneState) (count : Int) (h : count < 0) :
    spawnTrees rand s count = (cleanupTrees s, some SpawnError.rangeError)
    ∧ (cleanupTrees s).currentTreeCount = s.currentTreeCount
    ∧ (∀ tf, s.treeInstancedMesh = some tf →
        ∃ tf', (cleanupTrees s).treeInstancedMesh = some tf'
          ∧ tf'.1.disposed = true ∧ tf'.2.disposed = true
          ∧ tf'.1.inScene = false ∧ tf'.2.inScene = false) := by
  refine ⟨by simp [spawnTrees, h], ?_, ?_⟩
  · unfold cleanupTrees
    rcases s.treeInstancedMesh with _ | tf <;> rfl
  · intro tf htf
    unfold cleanupTrees
    rw [htf]
    exact ⟨_, rfl, rfl, rfl, rfl, rfl⟩

/-- C6 amended witness. -/
theorem spawnTrees_negative_witness :
    spawnTrees demoRand demoScene (-1) = (cleanupTrees demoScene, some SpawnError.rangeError)
    ∧ (cleanupTrees demoScene).currentTreeCount = demoScene.currentTreeCount :=
  ⟨(spawnTrees_negative_reports_and_preserves_count demoRand demoScene (-1) (by decide)).1,
   (spawnTrees_negative_reports_and_preserves_count demoRand demoScene (-1) (by decide)).2.1⟩

/-! ## C10 — every accepted parse is bounded -/

/-- C10: whenever `parseStudentCode` returns `valid = true` the extracted
limit is a present integer with `0 ≤ limit ≤ 1000` (the safety cap): being
a natural number it is nonnegative, and every valid-producing branch
stores either `min · 1000`, the cap itself, or `0`. -/
theorem parse_valid_limit_bounded (code : List Char)
    (h : (parseStudentCode code).valid = true) :
    ∃ n : Nat, (parseStudentCode code).limit = some n ∧ n ≤ maxTreeLimit := by
  have hmin : ∀ m : Nat, min m maxTreeLimit ≤ maxTreeLimit := fun m => Nat.min_le_right _ _
  rcases hW : scan matchWhileAt (stripComments code) with _ | cond
  · rcases hF : scan matchForAt (stripComments code) with _ | p
    · rcases hA : scan matchAssignAt (stripComments code) with _ | q
      · simp [parseStudentCode, hW, hF, hA] at h
      · simp only [parseStudentCode, hW, hF, hA, addPerformanceWarnings_limit]
        exact ⟨_, rfl, hmin _⟩
    · simp only [parseStudentCode, hW, hF, addPerformanceWarnings_limit]
      exact ⟨_, rfl, hmin _⟩
  · rcases hE : extractLimitFromCondition cond with _ | n
    · by_cases h1 : cond = "true".toList
      · simp only [parseStudentCode, hW, hE, h1, if_pos rfl, addPerformanceWarnings_limit]
        exact ⟨maxTreeLimit, rfl, le_refl _⟩
      · by_cases h2 : cond = "false".toList
        · simp only [parseStudentCode, hW, hE, if_neg h1, h2, if_pos rfl,
            addPerformanceWarnings_limit]
          exact ⟨0, rfl, Nat.zero_le _⟩
        · exfalso
          simp only [parseStudentCode, hW, hE, if_neg h1, if_neg h2,
            addPerformanceWarnings_valid] at h
          simp at h
    · simp only [parseStudentCode, hW, hE, addPerformanceWarnings_limit]
      exact ⟨_, rfl, hmin _⟩

/-- C10 witness. -/
theorem parse_valid_limit_bounded_witness :
    ∃ n : Nat, (parseStudentCode ("maxTrees = 7".toList)).limit = some n
      ∧ n ≤ maxTreeLimit :=
  parse_valid_limit_bounded ("maxTrees = 7".toList) (by decide)

/-! ## C4 — the 60-slot FPS history ring -/

theorem historyChronological_length (s : ProfilerState) :
    (historyChronological s).length = 60 := by
  simp [historyChronological]

theorem historyChronological_getElem (t : ProfilerState) (k : Nat)
    (hk : k < (historyChronological t).length) :
    (historyChronological t)[k] = t.fpsHistory.getD ((t.historyIndex + k) % 60) 0 := by
  simp only [historyChronological, List.getElem_map, List.getElem_range]

theorem getD_set_ne (l : List Int) (i j : Nat) (v : Int) (h : i ≠ j)
    (hj : j < l.length) : (l.set i v).getD j 0 = l.getD j 0 := by
  rw [List.getD_eq_getElem _ _ (by simpa using hj), List.getD_eq_getElem _ _ hj,
    List.getElem_set_ne h]

theorem getD_set_self (l : List Int) (i : Nat) (v : Int) (hi : i < l.length) :
    (l.set i v).getD i 0 = v := by
  rw [List.getD_eq_getElem _ _ (by simpa using hi), List.getElem_set_self]

/-- One ring write shifts the chronological read by one slot and appends
the new value at the end. -/
theorem historyChronological_recordFps (s : ProfilerState) (v : Int)
    (hlen : s.fpsHistory.length = 60) (hidx : s.historyIndex < 60) :
    historyChronological (recordFps s v) = (historyChronological s).drop 1 ++ [v] := by
  apply List.ext_getElem
  · simp [historyChronological_length]
  · intro i h1 h2
    have hi60 : i < 60 := by
      rw [historyChronological_length] at h1
      exact h1
    rw [historyChronological_getElem _ i h1]
    simp only [recordFps]
    rcases Nat.lt_or_ge i 59 with hlt | hge
    · have hL : i < ((historyChronological s).drop 1).length := by
        simp [historyChronological_length]
        omega
      rw [List.getElem_append_left hL, List.getElem_drop,
        historyChronological_getElem s (1 + i)
          (by rw [historyChronological_length]; omega)]
      have harith : ((s.historyIndex + 1) % 60 + i) % 60 = (s.historyIndex + (1 + i)) % 60 := by
        rw [Nat.mod_add_mod, show s.historyIndex + 1 + i = s.historyIndex + (1 + i) from by
          omega]
      rw [harith]
      apply getD_set_ne
      · omega
      · omega
    · have hi59 : i = 59 := by omega
      subst hi59
      have hL : ((historyChronological s).drop 1).length ≤ 59 := by
        simp [historyChronological_length]
      rw [List.getElem_append_right hL]
      have harith : ((s.historyIndex + 1) % 60 + 59) % 60 = s.historyIndex := by omega
      rw [harith, getD_set_self _ _ _ (by omega)]
      have hL2 : ((historyChronological s).drop 1).length = 59 := by
        simp [historyChronological_length]
      simp [hL2]

/-- Folding writes over the ring from any well-formed state keeps exactly
the last 60 of "previous contents then the written values". -/
theorem historyChronological_foldl (vs : List Int) :
    ∀ s : ProfilerState, s.fpsHistory.length = 60 → s.historyIndex < 60 →
      historyChronological (vs.foldl recordFps s) =
        (historyChronological s ++ vs).drop vs.length := by
  induction vs with
  | nil => intro s _ _; simp
  | cons v vs ih =>
    intro s h1 h2
    have hlen' : (recordFps s v).fpsHistory.length = 60 := by simp [recordFps, h1]
    have hidx' : (recordFps s v).historyIndex < 60 := by
      simp only [recordFps]
      omega
    rw [List.foldl_cons, ih _ hlen' hidx', historyChronological_recordFps s v h1 h2]
    have hne : historyChronological s ≠ [] := by
      intro hnil
      have := historyChronological_length s
      rw [hnil] at this
      simp at this
    obtain ⟨a, t, hat⟩ := List.exists_cons_of_ne_nil hne
    rw [hat]
    simp [List.drop_succ_cons, List.append_assoc]

/-- C4: the FPS history is a fixed 60-slot ring: it is created pre-filled
with the neutral default 60; each write stores at the cursor and advances
the cursor modulo 60 without changing the buffer length; and reading from
the cursor forward reconstructs chronological order — after 65 writes the
chronological read is exactly the 60 most recent written values, in order,
with no gaps or duplicated slots. -/
theorem fpsHistory_ring_correct :
    initProfilerState.fpsHistory = List.replicate 60 60
    ∧ (∀ (s : ProfilerState) (v : Int),
        (recordFps s v).fpsHistory.length = s.fpsHistory.length
        ∧ (recordFps s v).historyIndex = (s.historyIndex + 1) % 60)
    ∧ (∀ vs : List Int, vs.length = 65 →
        historyChronological (vs.foldl recordFps initProfilerState) = vs.drop 5) := by
  refine ⟨rfl, fun s v => ⟨by simp [recordFps], rfl⟩, fun vs h65 => ?_⟩
  rw [historyChronological_foldl vs initProfilerState (by simp [initProfilerState])
    (by simp [initProfilerState])]
  have hinit : historyChronological initProfilerState = List.replicate 60 60 := by
    decide
  rw [hinit, h65, show (65 : Nat) = 60 + 5 from rfl, ← List.drop_drop,
    List.drop_left' (by simp)]

/-- C4 witness: a concrete run of 65 writes. -/
theorem fpsHistory_ring_correct_witness :
    historyChronological
      ((List.map (fun i : Nat => (i : Int)) (List.range 65)).foldl recordFps initProfilerState) =
      (List.map (fun i : Nat => (i : Int)) (List.range 65)).drop 5 :=
  fpsHistory_ring_correct.2.2 _ (by rw [List.length_map, List.length_range])

/-! ## String-matching helper lemmas (for C2 and C7) -/

theorem word_of_digit {c : Char} (h : isDigitChar c = true) : isWordChar c = true := by
  simp only [isDigitChar] at h
  simp [isWordChar, Char.isAlphanum, h]

theorem not_space_of_word {c : Char} (h : isWordChar c = true) : isSpaceChar c = false := by
  rw [Bool.eq_false_iff]
  intro hs
  have hs' : c = ' ' ∨ c = '\t' ∨ c = '\n' ∨ c = '\r' ∨ c = '\x0b' ∨ c = '\x0c' := by
    simpa [isSpaceChar, Bool.or_eq_true, decide_eq_true_eq, or_assoc] using hs
  rcases hs' with h1 | h1 | h1 | h1 | h1 | h1 <;> subst h1 <;> exact absurd h (by decide)

theorem not_space_of_digit {c : Char} (h : isDigitChar c = true) : isSpaceChar c = false :=
  not_space_of_word (word_of_digit h)

theorem not_lineTerm_of_digit {c : Char} (h : isDigitChar c = true) : isLineTerm c = false := by
  rw [Bool.eq_false_iff]
  intro hs
  have hs' : c = '\n' ∨ c = '\r' := by
    simpa [isLineTerm, Bool.or_eq_true, decide_eq_true_eq] using hs
  rcases hs' with h1 | h1 <;> subst h1 <;> exact absurd h (by decide)

theorem ne_of_digit_of_not {c d : Char} (h : isDigitChar c = true)
    (hd : isDigitChar d = false) : c ≠ d := by
  intro he
  subst he
  rw [h] at hd
  cases hd

theorem ne_of_word_of_not {c d : Char} (h : isWordChar c = true)
    (hd : isWordChar d = false) : c ≠ d := by
  intro he
  subst he
  rw [h] at hd
  cases hd

theorem takeWhile_dropWhile_append (p : Char → Bool) (w r : List Char)
    (hall : ∀ c ∈ w, p c = true) (hr : ∀ c, r.head? = some c → p c = false) :
    (w ++ r).takeWhile p = w ∧ (w ++ r).dropWhile p = r := by
  induction w with
  | nil =>
    simp only [List.nil_append]
    cases r with
    | nil => simp
    | cons c t => simp [List.takeWhile_cons, List.dropWhile_cons, hr c rfl]
  | cons a w ih =>
    have ha : p a = true := hall a (by simp)
    have ih' := ih (fun c hc => hall c (by simp [hc]))
    simp [List.takeWhile_cons, List.dropWhile_cons, ha, ih'.1, ih'.2]

theorem dropWhile_head_false (p : Char → Bool) (l : List Char)
    (h : ∀ c, l.head? = some c → p c = false) : l.dropWhile p = l := by
  cases l with
  | nil => rfl
  | cons c t => simp [List.dropWhile_cons, h c rfl]

theorem dropWhile_append_of_ne_nil (p : Char → Bool) (a b : List Char)
    (h : a.dropWhile p ≠ []) : (a ++ b).dropWhile p = a.dropWhile p ++ b := by
  induction a with
  | nil => simp at h
  | cons c t ih =>
    by_cases hc : p c = true
    · simp only [List.cons_append, List.dropWhile_cons, hc, if_true] at h ⊢
      exact ih h
    · rw [Bool.not_eq_true] at hc
      simp [List.dropWhile_cons, hc]

theorem takeWord_append (w r : List Char) (hw : w ≠ [])
    (hall : ∀ c ∈ w, isWordChar c = true)
    (hr : ∀ c, r.head? = some c → isWordChar c = false) :
    takeWord (w ++ r) = some (w, r) := by
  obtain ⟨ht, hd⟩ := takeWhile_dropWhile_append isWordChar w r hall hr
  simp [takeWord, ht, hd, hw]

theorem takeWord_all (t : List Char) (ht : t ≠ [])
    (h : ∀ c ∈ t, isWordChar c = true) : takeWord t = some (t, []) := by
  have := takeWord_append t [] ht h (by intro c hc; simp at hc)
  simpa using this

theorem takeWord_none (l : List Char)
    (h : ∀ c, l.head? = some c → isWordChar c = false) : takeWord l = none := by
  cases l with
  | nil => rfl
  | cons c t => simp [takeWord, List.takeWhile_cons, h c rfl]

theorem takeDigits_append (w r : List Char) (hw : w ≠ [])
    (hall : ∀ c ∈ w, isDigitChar c = true)
    (hr : ∀ c, r.head? = some c → isDigitChar c = false) :
    takeDigits (w ++ r) = some (w, r) := by
  obtain ⟨ht, hd⟩ := takeWhile_dropWhile_append isDigitChar w r hall hr
  simp [takeDigits, ht, hd, hw]

theorem takeDigits_all (t : List Char) (ht : t ≠ [])
    (h : ∀ c ∈ t, isDigitChar c = true) : takeDigits t = some (t, []) := by
  have := takeDigits_append t [] ht h (by intro c hc; simp at hc)
  simpa using this

theorem takeDigits_none (l : List Char)
    (h : ∀ c, l.head? = some c → isDigitChar c = false) : takeDigits l = none := by
  cases l with
  | nil => rfl
  | cons c t => simp [takeDigits, List.takeWhile_cons, h c rfl]

theorem takeDigits_rest {t : List Char} {p : List Char × List Char}
    (h : takeDigits t = some p) : p.2 = t.dropWhile isDigitChar := by
  simp only [takeDigits] at h
  split_ifs at h
  cases h
  rfl

theorem dropWs_cons_space {c : Char} (r : List Char) (h : isSpaceChar c = true) :
    dropWs (c :: r) = dropWs r := by
  simp [dropWs, List.dropWhile_cons, h]

theorem dropWs_cons_not {c : Char} (r : List Char) (h : isSpaceChar c = false) :
    dropWs (c :: r) = c :: r := by
  simp [dropWs, List.dropWhile_cons, h]

theorem scan_eq_some_head {α : Type} (f : List Char → Option α) (l : List Char) (a : α)
    (h : f l = some a) : scan f l = some a := by
  cases l <;> simp [scan, h]

theorem scan_eq_none_of {α : Type} (f : List Char → Option α) (l : List Char)
    (h : ∀ t, t <:+ l → f t = none) : scan f l = none := by
  induction l with
  | nil => simpa [scan] using h [] (List.suffix_refl [])
  | cons c r ih =>
    have h0 := h (c :: r) (List.suffix_refl _)
    simp only [scan, h0]
    exact ih (fun t ht => h t (ht.trans (List.suffix_cons c r)))

theorem suffix_append_cases {t a b : List Char} (h : t <:+ a ++ b) :
    t <:+ b ∨ ∃ a', a' <:+ a ∧ a' ≠ [] ∧ t = a' ++ b := by
  induction a with
  | nil => exact Or.inl (by simpa using h)
  | cons c a ih =>
    rw [List.cons_append] at h
    rcases List.suffix_cons_iff.mp h with h1 | h2
    · exact Or.inr ⟨c :: a, List.suffix_refl _, by simp, by simpa using h1⟩
    · rcases ih h2 with h3 | ⟨a', ha1, ha2, ha3⟩
      · exact Or.inl h3
      · exact Or.inr ⟨a', ha1.trans (List.suffix_cons c a), ha2, ha3⟩

theorem getLast?_mem_self {l : List Char} {a : Char} (h : l.getLast? = some a) :
    a ∈ l := by
  have hm : a ∈ l.getLast? := by rw [h]; rfl
  rcases List.mem_getLast?_eq_getLast hm with ⟨hne, heq⟩
  rw [heq]
  exact List.getLast_mem hne

/-- The last element of a nonempty suffix is the last element of the list. -/
theorem getLast?_of_suffix {t l : List Char} (h : t <:+ l) (hne : t ≠ []) :
    t.getLast? = l.getLast? := by
  obtain ⟨p, hp⟩ := h
  subst hp
  rw [List.getLast?_append]
  cases ht : t.getLast? with
  | none => exact absurd (List.getLast?_eq_none_iff.mp ht) hne
  | some a => rfl

theorem trimChars_eq_self (l : List Char)
    (h1 : ∀ c, l.head? = some c → isSpaceChar c = false)
    (h2 : ∀ c, l.getLast? = some c → isSpaceChar c = false) : trimChars l = l := by
  unfold trimChars
  rw [dropWhile_head_false _ _ h1,
    dropWhile_head_false _ _ (fun c hc => h2 c (by rwa [List.head?_reverse] at hc)),
    List.reverse_reverse]

theorem dropWs_of_digits (ds : List Char) (h : ∀ c ∈ ds, isDigitChar c = true) :
    dropWs ds = ds := by
  apply dropWhile_head_false
  intro c hc
  cases ds with
  | nil => simp at hc
  | cons d t =>
    simp only [List.head?_cons, Option.some_inj] at hc
    subst hc
    exact not_space_of_digit (h _ (by simp))

/-- A run of word characters alone does not match `\w+\s*<\s*(\d+)`. -/
theorem matchIdLt_none_of_word (t : List Char) (h : ∀ c ∈ t, isWordChar c = true) :
    matchIdLt t = none := by
  cases t with
  | nil => rfl
  | cons c r =>
    simp only [matchIdLt, takeWord_all (c :: r) (by simp) h]
    rfl

/-- A run of word characters alone does not match `\w+\s*<=\s*(\d+)`. -/
theorem matchIdLe_none_of_word (t : List Char) (h : ∀ c ∈ t, isWordChar c = true) :
    matchIdLe t = none := by
  cases t with
  | nil => rfl
  | cons c r =>
    simp only [matchIdLe, takeWord_all (c :: r) (by simp) h]
    rfl

/-- A run of word characters alone does not match `(\d+)\s*>\s*\w+`. -/
theorem matchNumGt_none_of_word (t : List Char) (h : ∀ c ∈ t, isWordChar c = true) :
    matchNumGt t = none := by
  rcases hd : takeDigits t with _ | p
  · simp [matchNumGt, hd]
  · have hrest := takeDigits_rest hd
    have hsub : ∀ c ∈ p.2, isWordChar c = true := by
      intro c hc
      exact h c ((List.dropWhile_sublist isDigitChar).subset (by rwa [← hrest]))
    simp only [matchNumGt, hd]
    rcases hp2 : p.2 with _ | ⟨c, r⟩
    · rfl
    · have hcw : isWordChar c = true := hsub c (by simp [hp2])
      rw [dropWs_cons_not _ (not_space_of_word hcw)]
      split
      · rename_i r2 heq
        rw [show c = '>' from (List.cons.injEq _ _ _ _).mp heq |>.1] at hcw
        exact absurd hcw (by decide)
      · rfl

/-- A run of word characters alone does not match `(\d+)\s*>=\s*\w+`. -/
theorem matchNumGe_none_of_word (t : List Char) (h : ∀ c ∈ t, isWordChar c = true) :
    matchNumGe t = none := by
  rcases hd : takeDigits t with _ | p
  · simp [matchNumGe, hd]
  · have hrest := takeDigits_rest hd
    have hsub : ∀ c ∈ p.2, isWordChar c = true := by
      intro c hc
      exact h c ((List.dropWhile_sublist isDigitChar).subset (by rwa [← hrest]))
    simp only [matchNumGe, hd]
    rcases hp2 : p.2 with _ | ⟨c, r⟩
    · rfl
    · have hcw : isWordChar c = true := hsub c (by simp [hp2])
      rw [dropWs_cons_not _ (not_space_of_word hcw)]
      split
      · rename_i r2 heq
        rw [show c = '>' from (List.cons.injEq _ _ _ _).mp heq |>.1] at hcw
        exact absurd hcw (by decide)
      · rfl

/-- C2 general form `IDENT < N`: the extractor yields the numeral. -/
theorem extract_id_lt (id ds : List Char) (hid : id ≠ [])
    (hidw : ∀ c ∈ id, isWordChar c = true) (hds : ds ≠ [])
    (hdsd : ∀ c ∈ ds, isDigitChar c = true) :
    extractLimitFromCondition (id ++ ' ' :: '<' :: ' ' :: ds) = some (digitsToNat ds) := by
  have e1 : dropWs (' ' :: '<' :: ' ' :: ds) = '<' :: ' ' :: ds := by
    rw [dropWs_cons_space _ (by decide), dropWs_cons_not _ (by decide)]
  have e2 : dropWs (' ' :: ds) = ds := by
    rw [dropWs_cons_space _ (by decide)]
    exact dropWs_of_digits ds hdsd
  have hm : matchIdLt (id ++ ' ' :: '<' :: ' ' :: ds) = some (digitsToNat ds) := by
    rw [matchIdLt, takeWord_append id (' ' :: '<' :: ' ' :: ds) hid hidw
      (fun c hc => by
        simp only [List.head?_cons, Option.some_inj] at hc
        subst hc
        decide)]
    simp only [e1, e2, takeDigits_all ds hds hdsd]
  rw [extractLimitFromCondition, scan_eq_some_head _ _ _ hm]

theorem dropWs_of_word (w : List Char) (h : ∀ c ∈ w, isWordChar c = true) :
    dropWs w = w := by
  apply dropWhile_head_false
  intro c hc
  cases w with
  | nil => simp at hc
  | cons d t =>
    simp only [List.head?_cons, Option.some_inj] at hc
    subst hc
    exact not_space_of_word (h _ (by simp))

/-- Head of the rest is not a word char: used to cut a word run before a
space. -/
theorem head_not_word_space : ∀ c : Char, (' ' :: (l : List Char)).head? = some c →
    isWordChar c = false := by
  intro c hc
  simp only [List.head?_cons, Option.some_inj] at hc
  subst hc
  decide

/-- C2 general form `IDENT <= N`: the extractor yields the numeral plus
one.  The first regex `\w+\s*<\s*\d+` matches nowhere in the subject. -/
theorem extract_id_le (id ds : List Char) (hid : id ≠ [])
    (hidw : ∀ c ∈ id, isWordChar c = true) (hds : ds ≠ [])
    (hdsd : ∀ c ∈ ds, isDigitChar c = true) :
    extractLimitFromCondition (id ++ ' ' :: '<' :: '=' :: ' ' :: ds) =
      some (digitsToNat ds + 1) := by
  have e1 : dropWs (' ' :: '<' :: '=' :: ' ' :: ds) = '<' :: '=' :: ' ' :: ds := by
    rw [dropWs_cons_space _ (by decide), dropWs_cons_not _ (by decide)]
  have e2 : dropWs (' ' :: ds) = ds := by
    rw [dropWs_cons_space _ (by decide)]
    exact dropWs_of_digits ds hdsd
  have hnone : scan matchIdLt (id ++ ' ' :: '<' :: '=' :: ' ' :: ds) = none := by
    apply scan_eq_none_of
    intro t ht
    rcases suffix_append_cases ht with hb | ⟨id', h1, h2, h3⟩
    · rcases suffix_append_cases (show t <:+ [' ', '<', '=', ' '] ++ ds from hb)
        with hds' | ⟨s', hs1, hs2, hs3⟩
      · exact matchIdLt_none_of_word t
          (fun c hc => word_of_digit (hdsd c (hds'.subset hc)))
      · subst hs3
        have hm := (List.mem_tails s' [' ', '<', '=', ' ']).mpr hs1
        simp only [List.tails, List.mem_cons, List.not_mem_nil, or_false] at hm
        rcases hm with h | h | h | h | h <;> subst h
        · rfl
        · rfl
        · rfl
        · rfl
        · exact absurd rfl hs2
    · subst h3
      rw [matchIdLt, takeWord_append id' _ h2 (fun c hc => hidw c (h1.subset hc))
        head_not_word_space]
      rfl
  rw [extractLimitFromCondition, hnone]
  have hm : matchIdLe (id ++ ' ' :: '<' :: '=' :: ' ' :: ds) = some (digitsToNat ds) := by
    rw [matchIdLe, takeWord_append id _ hid hidw head_not_word_space]
    simp only [e1, e2, takeDigits_all ds hds hdsd]
  rw [scan_eq_some_head _ _ _ hm]

/-- C2 general form `N > IDENT`: the extractor yields the numeral.  The
identifier-headed regexes match nowhere in the subject. -/
theorem extract_num_gt (ds id : List Char) (hds : ds ≠ [])
    (hdsd : ∀ c ∈ ds, isDigitChar c = true) (hid : id ≠ [])
    (hidw : ∀ c ∈ id, isWordChar c = true) :
    extractLimitFromCondition (ds ++ ' ' :: '>' :: ' ' :: id) = some (digitsToNat ds) := by
  have e2 : dropWs (' ' :: id) = id := by
    rw [dropWs_cons_space _ (by decide)]
    exact dropWs_of_word id hidw
  have hsuffix : ∀ {t : List Char} (f : List Char → Option Nat),
      t <:+ ds ++ ' ' :: '>' :: ' ' :: id →
      (∀ u, (∀ c ∈ u, isWordChar c = true) → f u = none) →
      (∀ (ds' : List Char), ds' ≠ [] → (∀ c ∈ ds', isWordChar c = true) →
        f (ds' ++ ' ' :: '>' :: ' ' :: id) = none) →
      (∀ s', s' <:+ [' ', '>', ' '] → s' ≠ [] → f (s' ++ id) = none) →
      f t = none := by
    intro t f ht hword hdig hsep
    rcases suffix_append_cases ht with hb | ⟨ds', h1, h2, h3⟩
    · rcases suffix_append_cases (show t <:+ [' ', '>', ' '] ++ id from hb)
        with hid' | ⟨s', hs1, hs2, hs3⟩
      · exact hword t (fun c hc => hidw c (hid'.subset hc))
      · subst hs3
        exact hsep s' hs1 hs2
    · subst h3
      exact hdig ds' h2 (fun c hc => word_of_digit (hdsd c (h1.subset hc)))
  have hn1 : scan matchIdLt (ds ++ ' ' :: '>' :: ' ' :: id) = none := by
    apply scan_eq_none_of
    intro t ht
    apply hsuffix matchIdLt ht matchIdLt_none_of_word
    · intro ds' h2 hw
      rw [matchIdLt, takeWord_append ds' _ h2 hw head_not_word_space]
      rfl
    · intro s' hs1 hs2
      have hm := (List.mem_tails s' [' ', '>', ' ']).mpr hs1
      simp only [List.tails, List.mem_cons, List.not_mem_nil, or_false] at hm
      rcases hm with h | h | h | h <;> subst h
      · rfl
      · rfl
      · rfl
      · exact absurd rfl hs2
  have hn2 : scan matchIdLe (ds ++ ' ' :: '>' :: ' ' :: id) = none := by
    apply scan_eq_none_of
    intro t ht
    apply hsuffix matchIdLe ht matchIdLe_none_of_word
    · intro ds' h2 hw
      rw [matchIdLe, takeWord_append ds' _ h2 hw head_not_word_space]
      rfl
    · intro s' hs1 hs2
      have hm := (List.mem_tails s' [' ', '>', ' ']).mpr hs1
      simp only [List.tails, List.mem_cons, List.not_mem_nil, or_false] at hm
      rcases hm with h | h | h | h <;> subst h
      · rfl
      · rfl
      · rfl
      · exact absurd rfl hs2
  rw [extractLimitFromCondition, hn1, hn2]
  have e1 : dropWs (' ' :: '>' :: ' ' :: id) = '>' :: ' ' :: id := by
    rw [dropWs_cons_space _ (by decide), dropWs_cons_not _ (by decide)]
  have hm : matchNumGt (ds ++ ' ' :: '>' :: ' ' :: id) = some (digitsToNat ds) := by
    rw [matchNumGt, takeDigits_append ds _ hds hdsd (fun c hc => by
      simp only [List.head?_cons, Option.some_inj] at hc
      subst hc
      decide)]
    simp only [e1, e2, takeWord_all id hid hidw]
  rw [scan_eq_some_head _ _ _ hm]

/-- C2 general form `N >= IDENT`: the extractor yields the numeral plus
one. -/
theorem extract_num_ge (ds id : List Char) (hds : ds ≠ [])
    (hdsd : ∀ c ∈ ds, isDigitChar c = true) (hid : id ≠ [])
    (hidw : ∀ c ∈ id, isWordChar c = true) :
    extractLimitFromCondition (ds ++ ' ' :: '>' :: '=' :: ' ' :: id) =
      some (digitsToNat ds + 1) := by
  have e2 : dropWs (' ' :: id) = id := by
    rw [dropWs_cons_space _ (by decide)]
    exact dropWs_of_word id hidw
  have hsuffix : ∀ {t : List Char} (f : List Char → Option Nat),
      t <:+ ds ++ ' ' :: '>' :: '=' :: ' ' :: id →
      (∀ u, (∀ c ∈ u, isWordChar c = true) → f u = none) →
      (∀ (ds' : List Char), ds' ≠ [] → (∀ c ∈ ds', isDigitChar c = true) →
        f (ds' ++ ' ' :: '>' :: '=' :: ' ' :: id) = none) →
      (∀ s', s' <:+ [' ', '>', '=', ' '] → s' ≠ [] → f (s' ++ id) = none) →
      f t = none := by
    intro t f ht hword hdig hsep
    rcases suffix_append_cases ht with hb | ⟨ds', h1, h2, h3⟩
    · rcases suffix_append_cases (show t <:+ [' ', '>', '=', ' '] ++ id from hb)
        with hid' | ⟨s', hs1, hs2, hs3⟩
      · exact hword t (fun c hc => hidw c (hid'.subset hc))
      · subst hs3
        exact hsep s' hs1 hs2
    · subst h3
      exact hdig ds' h2 (fun c hc => hdsd c (h1.subset hc))
  have hseps : ∀ (f : List Char → Option Nat),
      f ([' ', '>', '=', ' '] ++ id) = none →
      f (['>', '=', ' '] ++ id) = none →
      f (['=', ' '] ++ id) = none →
      f ([' '] ++ id) = none →
      ∀ s', s' <:+ [' ', '>', '=', ' '] → s' ≠ [] → f (s' ++ id) = none := by
    intro f hf1 hf2 hf3 hf4 s' hs1 hs2
    have hm := (List.mem_tails s' [' ', '>', '=', ' ']).mpr hs1
    simp only [List.tails, List.mem_cons, List.not_mem_nil, or_false] at hm
    rcases hm with h | h | h | h | h <;> subst h
    · exact hf1
    · exact hf2
    · exact hf3
    · exact hf4
    · exact absurd rfl hs2
  have hn1 : scan matchIdLt (ds ++ ' ' :: '>' :: '=' :: ' ' :: id) = none := by
    apply scan_eq_none_of
    intro t ht
    apply hsuffix matchIdLt ht matchIdLt_none_of_word
    · intro ds' h2 hdd
      rw [matchIdLt, takeWord_append ds' _ h2 (fun c hc => word_of_digit (hdd c hc))
        head_not_word_space]
      rfl
    · exact hseps matchIdLt rfl rfl rfl rfl
  have hn2 : scan matchIdLe (ds ++ ' ' :: '>' :: '=' :: ' ' :: id) = none := by
    apply scan_eq_none_of
    intro t ht
    apply hsuffix matchIdLe ht matchIdLe_none_of_word
    · intro ds' h2 hdd
      rw [matchIdLe, takeWord_append ds' _ h2 (fun c hc => word_of_digit (hdd c hc))
        head_not_word_space]
      rfl
    · exact hseps matchIdLe rfl rfl rfl rfl
  have hn3 : scan matchNumGt (ds ++ ' ' :: '>' :: '=' :: ' ' :: id) = none := by
    apply scan_eq_none_of
    intro t ht
    apply hsuffix matchNumGt ht matchNumGt_none_of_word
    · intro ds' h2 hdd
      rw [matchNumGt, takeDigits_append ds' _ h2 hdd (fun c hc => by
        simp only [List.head?_cons, Option.some_inj] at hc
        subst hc
        decide)]
      rfl
    · exact hseps matchNumGt rfl rfl rfl rfl
  rw [extractLimitFromCondition, hn1, hn2, hn3]
  have e1 : dropWs (' ' :: '>' :: '=' :: ' ' :: id) = '>' :: '=' :: ' ' :: id := by
    rw [dropWs_cons_space _ (by decide), dropWs_cons_not _ (by decide)]
  have hm : matchNumGe (ds ++ ' ' :: '>' :: '=' :: ' ' :: id) = some (digitsToNat ds) := by
    rw [matchNumGe, takeDigits_append ds _ hds hdsd (fun c hc => by
      simp only [List.head?_cons, Option.some_inj] at hc
      subst hc
      decide)]
    simp only [e1, e2, takeWord_all id hid hidw]
  rw [scan_eq_some_head _ _ _ hm]

theorem dropWs_append_of_ne_nil (a b : List Char) (h : dropWs a ≠ []) :
    dropWs (a ++ b) = dropWs a ++ b :=
  dropWhile_append_of_ne_nil isSpaceChar a b h

theorem dropWs_ne_nil_of_last (zs : List Char) {d : Char} (h : zs.getLast? = some d)
    (hd : isSpaceChar d = false) : dropWs zs ≠ [] := by
  intro hnil
  have := List.dropWhile_eq_nil_iff.mp hnil d (getLast?_mem_self h)
  rw [hd] at this
  cases this

theorem headIsParen_dropWs_append_false (zs w : List Char)
    (hne : dropWs zs ≠ []) (hnp : ∀ c ∈ zs, c ≠ ')') :
    headIsParen (dropWs (zs ++ w)) = false := by
  rw [dropWs_append_of_ne_nil _ _ hne]
  cases hdz : dropWs zs with
  | nil => exact absurd hdz hne
  | cons c t =>
    have hc : c ∈ zs := (List.dropWhile_sublist isSpaceChar).subset (by
      rw [show List.dropWhile isSpaceChar zs = c :: t from hdz]
      simp)
    simp [headIsParen, hnp c hc]

/-- The lazy capture closes at the final `)` when no earlier position
offers a whitespace-then-`)` continuation. -/
theorem scanCond_closes (xs rest : List Char) (hne : xs ≠ [])
    (hnl : ∀ c ∈ xs, isLineTerm c = false)
    (hmid : ∀ zs, zs <:+ xs → zs ≠ [] →
      headIsParen (dropWs (zs ++ ')' :: rest)) = false) :
    scanCond (xs ++ ')' :: rest) = some xs := by
  induction xs with
  | nil => exact absurd rfl hne
  | cons c t ih =>
    simp only [List.cons_append, scanCond]
    rw [if_neg (by simp [hnl c (by simp)])]
    cases t with
    | nil =>
      rw [if_pos (by
        simp only [List.append_eq, List.nil_append]
        rw [dropWs_cons_not _ (by decide)]
        rfl)]
    | cons d t2 =>
      have hmido : headIsParen (dropWs ((d :: t2) ++ ')' :: rest)) = false :=
        hmid (d :: t2) (List.suffix_cons c _) (by simp)
      simp only [List.cons_append] at hmido
      rw [if_neg (by simp only [List.append_eq, List.cons_append]; simp [hmido])]
      simp only [List.append_eq]
      rw [ih (by simp) (fun e he => hnl e (by simp [he]))
        (fun zs hz hzne => hmid zs (hz.trans (List.suffix_cons c _)) hzne)]
      rfl

theorem stripLineAux_no_slash (l : List Char) (h : ∀ c ∈ l, c ≠ '/') :
    stripLineAux false l = l := by
  induction l with
  | nil => rfl
  | cons c r ih =>
    have hc : c ≠ '/' := h c (by simp)
    simp [stripLineAux, hc, ih (fun d hd => h d (by simp [hd]))]

theorem stripBlockAux_no_slash (fuel : Nat) (l : List Char) (h : ∀ c ∈ l, c ≠ '/') :
    stripBlockAux fuel l = l := by
  induction fuel generalizing l with
  | zero => rfl
  | succ fuel ih =>
    cases l with
    | nil => rfl
    | cons c r =>
      have hc : c ≠ '/' := h c (by simp)
      simp [stripBlockAux, hc, ih r (fun d hd => h d (by simp [hd]))]

theorem stripComments_no_slash (l : List Char) (h : ∀ c ∈ l, c ≠ '/') :
    stripComments l = l := by
  rw [stripComments, stripLineAux_no_slash l h, stripBlock, stripBlockAux_no_slash _ l h]

theorem not_lineTerm_of_word {c : Char} (h : isWordChar c = true) :
    isLineTerm c = false := by
  rw [Bool.eq_false_iff]
  intro hs
  have hs' : c = '\n' ∨ c = '\r' := by
    simpa [isLineTerm, Bool.or_eq_true, decide_eq_true_eq] using hs
  rcases hs' with h1 | h1 <;> subst h1 <;> exact absurd h (by decide)

theorem tryStarts_eq_scanCond (l : List Char)
    (h : ∀ c, l.head? = some c → isSpaceChar c = false) :
    tryStarts l = scanCond l := by
  cases l with
  | nil => rfl
  | cons c r => simp [tryStarts, h c rfl]

theorem matchWhileAt_head (body : List Char) :
    matchWhileAt ('w' :: 'h' :: 'i' :: 'l' :: 'e' :: ' ' :: '(' :: body) =
      (tryStarts body).map trimChars := rfl

/-- The while path in general: on `while (IDENT < N)` the parser reports the
trimmed condition, clamps the numeral with `min`, and emits the cap warning
exactly when the numeral exceeds the cap. -/
theorem parse_while_general (id ds : List Char) (hid : id ≠ [])
    (hidw : ∀ c ∈ id, isWordChar c = true) (hds : ds ≠ [])
    (hdsd : ∀ c ∈ ds, isDigitChar c = true) :
    parseStudentCode
        ('w' :: 'h' :: 'i' :: 'l' :: 'e' :: ' ' :: '(' ::
          ((id ++ ' ' :: '<' :: ' ' :: ds) ++ [')'])) =
      addPerformanceWarnings
        { valid := true
          limit := some (min (digitsToNat ds) maxTreeLimit)
          condition := some (id ++ ' ' :: '<' :: ' ' :: ds)
          pattern := some Pat.whileP
          errors := []
          warnings := if maxTreeLimit < digitsToNat ds then [Diag.cappedForSafety]
            else [] } := by
  rcases hlast : ds.getLast? with _ | dl
  · exact absurd (List.getLast?_eq_none_iff.mp hlast) hds
  have hdld : isDigitChar dl = true := hdsd dl (getLast?_mem_self hlast)
  have hdsx : ds <:+ id ++ ' ' :: '<' :: ' ' :: ds :=
    List.IsSuffix.trans ⟨[' ', '<', ' '], rfl⟩ (List.suffix_append id _)
  have hxlast : (id ++ ' ' :: '<' :: ' ' :: ds).getLast? = some dl := by
    rw [← getLast?_of_suffix hdsx hds]
    exact hlast
  have hxw : ∀ c ∈ id ++ ' ' :: '<' :: ' ' :: ds,
      isWordChar c = true ∨ c = ' ' ∨ c = '<' := by
    intro c hc
    rcases List.mem_append.mp hc with h | h
    · exact Or.inl (hidw c h)
    · simp only [List.mem_cons] at h
      rcases h with h | h | h | h
      · exact Or.inr (Or.inl h)
      · exact Or.inr (Or.inr h)
      · exact Or.inr (Or.inl h)
      · exact Or.inl (word_of_digit (hdsd c h))
  have hxnp : ∀ c ∈ id ++ ' ' :: '<' :: ' ' :: ds, c ≠ ')' := by
    intro c hc
    rcases hxw c hc with h | h | h
    · exact ne_of_word_of_not h (by decide)
    · subst h; decide
    · subst h; decide
  have hxnl : ∀ c ∈ id ++ ' ' :: '<' :: ' ' :: ds, isLineTerm c = false := by
    intro c hc
    rcases hxw c hc with h | h | h
    · exact not_lineTerm_of_word h
    · subst h; decide
    · subst h; decide
  have hmid : ∀ zs, zs <:+ id ++ ' ' :: '<' :: ' ' :: ds → zs ≠ [] →
      headIsParen (dropWs (zs ++ ')' :: ([] : List Char))) = false := by
    intro zs hz hzne
    have hzl : zs.getLast? = some dl := by
      rw [getLast?_of_suffix hz hzne]
      exact hxlast
    exact headIsParen_dropWs_append_false zs _
      (dropWs_ne_nil_of_last zs hzl (not_space_of_digit hdld))
      (fun c hc => hxnp c (hz.subset hc))
  have hscan : scanCond ((id ++ ' ' :: '<' :: ' ' :: ds) ++ [')']) =
      some (id ++ ' ' :: '<' :: ' ' :: ds) :=
    scanCond_closes _ [] (by simp) hxnl hmid
  have hhead : ∀ c, ((id ++ ' ' :: '<' :: ' ' :: ds) ++ [')']).head? = some c →
      isSpaceChar c = false := by
    intro c hc
    cases id with
    | nil => exact absurd rfl hid
    | cons c0 r0 =>
      simp only [List.cons_append, List.head?_cons, Option.some_inj] at hc
      subst hc
      exact not_space_of_word (hidw c0 (by simp))
  have htry : tryStarts ((id ++ ' ' :: '<' :: ' ' :: ds) ++ [')']) =
      some (id ++ ' ' :: '<' :: ' ' :: ds) := by
    rw [tryStarts_eq_scanCond _ hhead]
    exact hscan
  have htrim : trimChars (id ++ ' ' :: '<' :: ' ' :: ds) =
      id ++ ' ' :: '<' :: ' ' :: ds := by
    apply trimChars_eq_self
    · intro c hc
      cases id with
      | nil => exact absurd rfl hid
      | cons c0 r0 =>
        simp only [List.cons_append, List.head?_cons, Option.some_inj] at hc
        subst hc
        exact not_space_of_word (hidw c0 (by simp))
    · intro c hc
      rw [hxlast, Option.some_inj] at hc
      subst hc
      exact not_space_of_digit hdld
  have hwm : matchWhileAt
      ('w' :: 'h' :: 'i' :: 'l' :: 'e' :: ' ' :: '(' ::
        ((id ++ ' ' :: '<' :: ' ' :: ds) ++ [')'])) =
      some (id ++ ' ' :: '<' :: ' ' :: ds) := by
    rw [matchWhileAt_head, htry]
    simp [htrim]
  have hstrip : stripComments
      ('w' :: 'h' :: 'i' :: 'l' :: 'e' :: ' ' :: '(' ::
        ((id ++ ' ' :: '<' :: ' ' :: ds) ++ [')'])) =
      'w' :: 'h' :: 'i' :: 'l' :: 'e' :: ' ' :: '(' ::
        ((id ++ ' ' :: '<' :: ' ' :: ds) ++ [')']) := by
    apply stripComments_no_slash
    intro c hc
    rcases List.mem_cons.mp hc with h | hc
    · subst h; decide
    rcases List.mem_cons.mp hc with h | hc
    · subst h; decide
    rcases List.mem_cons.mp hc with h | hc
    · subst h; decide
    rcases List.mem_cons.mp hc with h | hc
    · subst h; decide
    rcases List.mem_cons.mp hc with h | hc
    · subst h; decide
    rcases List.mem_cons.mp hc with h | hc
    · subst h; decide
    rcases List.mem_cons.mp hc with h | hc
    · subst h; decide
    rcases List.mem_append.mp hc with hc | h
    · rcases hxw c hc with hw | hw | hw
      · exact ne_of_word_of_not hw (by decide)
      · subst hw; decide
      · subst hw; decide
    · rw [List.mem_singleton.mp h]; decide
  have hscanw : scan matchWhileAt
      ('w' :: 'h' :: 'i' :: 'l' :: 'e' :: ' ' :: '(' ::
        ((id ++ ' ' :: '<' :: ' ' :: ds) ++ [')'])) =
      some (id ++ ' ' :: '<' :: ' ' :: ds) := scan_eq_some_head _ _ _ hwm
  simp only [parseStudentCode, hstrip, hscanw,
    extract_id_lt id ds hid hidw hds hdsd]

theorem matchWhileAt_none_of_head (t : List Char)
    (h : ∀ c, t.head? = some c → c ≠ 'w') : matchWhileAt t = none := by
  cases t with
  | nil => rfl
  | cons c r =>
    have hc : c ≠ 'w' := h c rfl
    have f1 : matchLit "while".toList (c :: r) =
        if c = 'w' then matchLit ['h', 'i', 'l', 'e'] r else none := rfl
    simp only [matchWhileAt, f1, if_neg hc]

theorem matchForAt_none_of_head (t : List Char)
    (h : ∀ c, t.head? = some c → c ≠ 'f') : matchForAt t = none := by
  cases t with
  | nil => rfl
  | cons c r =>
    have hc : c ≠ 'f' := h c rfl
    have f1 : matchLit "for".toList (c :: r) =
        if c = 'f' then matchLit ['o', 'r'] r else none := rfl
    simp only [matchForAt, f1, if_neg hc]

/-- A leftmost scan finds nothing when the matcher needs a head character
that occurs nowhere in the subject. -/
theorem scan_none_of_no_head {α : Type} (f : List Char → Option α) (w : Char)
    (hw : ∀ t, (∀ c, t.head? = some c → c ≠ w) → f t = none)
    (L ds : List Char) (hLc : ∀ c ∈ L, c ≠ w) (hdsc : ∀ c ∈ ds, c ≠ w) :
    scan f (L ++ ds) = none := by
  apply scan_eq_none_of
  intro t ht
  rcases suffix_append_cases ht with hb | ⟨a', h1, h2, h3⟩
  · apply hw
    intro c hc
    cases t with
    | nil => simp at hc
    | cons c0 r0 =>
      simp only [List.head?_cons, Option.some_inj] at hc
      subst hc
      exact hdsc c0 (hb.subset (by simp))
  · subst h3
    cases a' with
    | nil => exact absurd rfl h2
    | cons c0 r0 =>
      apply hw
      intro c hc
      simp only [List.cons_append, List.head?_cons, Option.some_inj] at hc
      subst hc
      exact hLc c0 (h1.subset (by simp))

/-- The for regex matches at the head of `for(i=0;i<N`, returning the `<`
operator and the digit run. -/
theorem matchForAt_head (ds : List Char) (hds : ds ≠ [])
    (hdsd : ∀ c ∈ ds, isDigitChar c = true) :
    matchForAt (['f', 'o', 'r', '(', 'i', '=', '0', ';', 'i', '<'] ++ ds) =
      some (false, ds) := by
  simp only [List.cons_append, List.nil_append]
  cases ds with
  | nil => exact absurd rfl hds
  | cons d ds' =>
    have hd : isDigitChar d = true := hdsd d (by simp)
    have f1 : matchLit "for".toList
        ('f' :: 'o' :: 'r' :: '(' :: 'i' :: '=' :: '0' :: ';' :: 'i' :: '<' :: d :: ds') =
        some ('(' :: 'i' :: '=' :: '0' :: ';' :: 'i' :: '<' :: d :: ds') := rfl
    have f2 : dropWs ('(' :: 'i' :: '=' :: '0' :: ';' :: 'i' :: '<' :: d :: ds') =
        '(' :: 'i' :: '=' :: '0' :: ';' :: 'i' :: '<' :: d :: ds' :=
      dropWs_cons_not _ (by decide)
    have f3 : splitSemi ('i' :: '=' :: '0' :: ';' :: 'i' :: '<' :: d :: ds') =
        some ('i' :: '<' :: d :: ds') := rfl
    have f4 : dropWs ('i' :: '<' :: d :: ds') = 'i' :: '<' :: d :: ds' :=
      dropWs_cons_not _ (by decide)
    have f5 : takeWord ('i' :: '<' :: d :: ds') = some (['i'], '<' :: d :: ds') := rfl
    have f6 : dropWs ('<' :: d :: ds') = '<' :: d :: ds' := dropWs_cons_not _ (by decide)
    simp only [matchForAt, f1, f2, f3, f4, f5, f6]
    split
    · rename_i r5 heq
      have hde : d = '=' :=
        ((List.cons.injEq _ _ _ _).mp (((List.cons.injEq _ _ _ _).mp heq).2)).1
      rw [hde] at hd
      exact absurd hd (by decide)
    · rename_i r5 hnot heq
      have hr5 : r5 = d :: ds' := (((List.cons.injEq _ _ _ _).mp heq).2).symm
      subst hr5
      rw [dropWs_of_digits _ hdsd, takeDigits_all _ (by simp) hdsd]
      rfl
    · rename_i h1 h2
      exact absurd rfl (h2 (d :: ds'))

/-- The assignment regex matches at the head of `maxTrees=N`. -/
theorem matchAssignAt_head (ds : List Char) (hds : ds ≠ [])
    (hdsd : ∀ c ∈ ds, isDigitChar c = true) :
    matchAssignAt (['m', 'a', 'x', 'T', 'r', 'e', 'e', 's', '='] ++ ds) =
      some (['m', 'a', 'x', 'T', 'r', 'e', 'e', 's'], ds) := by
  have f1 : matchAssignAt (['m', 'a', 'x', 'T', 'r', 'e', 'e', 's', '='] ++ ds) =
      (takeDigits (dropWs ds)).map
        (fun p => (['m', 'a', 'x', 'T', 'r', 'e', 'e', 's'], p.1)) := rfl
  rw [f1, dropWs_of_digits ds hdsd, takeDigits_all ds hds hdsd]
  rfl

/-- The for path in general: on `for(i=0;i<N` the parser accepts, clamps the
numeral with `min`, and emits no warning of its own. -/
theorem parse_for_general (ds : List Char) (hds : ds ≠ [])
    (hdsd : ∀ c ∈ ds, isDigitChar c = true) :
    parseStudentCode (['f', 'o', 'r', '(', 'i', '=', '0', ';', 'i', '<'] ++ ds) =
      addPerformanceWarnings
        { valid := true
          limit := some (min (digitsToNat ds) maxTreeLimit)
          condition := some ('i' :: ' ' :: '<' :: ' ' :: ds)
          pattern := some Pat.forP
          errors := []
          warnings := [] } := by
  have hstrip : stripComments (['f', 'o', 'r', '(', 'i', '=', '0', ';', 'i', '<'] ++ ds) =
      ['f', 'o', 'r', '(', 'i', '=', '0', ';', 'i', '<'] ++ ds := by
    apply stripComments_no_slash
    intro c hc
    rcases List.mem_append.mp hc with h | h
    · exact (by decide : ∀ c ∈ ['f', 'o', 'r', '(', 'i', '=', '0', ';', 'i', '<'],
        c ≠ '/') c h
    · exact ne_of_digit_of_not (hdsd c h) (by decide)
  have hwhile : scan matchWhileAt (['f', 'o', 'r', '(', 'i', '=', '0', ';', 'i', '<'] ++ ds)
      = none :=
    scan_none_of_no_head matchWhileAt 'w' matchWhileAt_none_of_head _ ds (by decide)
      (fun c hc => ne_of_digit_of_not (hdsd c hc) (by decide))
  have hfor : scan matchForAt (['f', 'o', 'r', '(', 'i', '=', '0', ';', 'i', '<'] ++ ds) =
      some (false, ds) :=
    scan_eq_some_head _ _ _ (matchForAt_head ds hds hdsd)
  simp only [parseStudentCode, hstrip, hwhile, hfor]
  rfl

/-- The assignment path in general: on `maxTrees=N` the parser accepts,
clamps the numeral with `min`, and emits no warning of its own. -/
theorem parse_assign_general (ds : List Char) (hds : ds ≠ [])
    (hdsd : ∀ c ∈ ds, isDigitChar c = true) :
    parseStudentCode (['m', 'a', 'x', 'T', 'r', 'e', 'e', 's', '='] ++ ds) =
      addPerformanceWarnings
        { valid := true
          limit := some (min (digitsToNat ds) maxTreeLimit)
          condition := some (['m', 'a', 'x', 'T', 'r', 'e', 'e', 's'] ++
            ' ' :: '=' :: ' ' :: ds)
          pattern := some Pat.assignP
          errors := []
          warnings := [] } := by
  have hstrip : stripComments (['m', 'a', 'x', 'T', 'r', 'e', 'e', 's', '='] ++ ds) =
      ['m', 'a', 'x', 'T', 'r', 'e', 'e', 's', '='] ++ ds := by
    apply stripComments_no_slash
    intro c hc
    rcases List.mem_append.mp hc with h | h
    · exact (by decide : ∀ c ∈ ['m', 'a', 'x', 'T', 'r', 'e', 'e', 's', '='],
        c ≠ '/') c h
    · exact ne_of_digit_of_not (hdsd c h) (by decide)
  have hwhile : scan matchWhileAt (['m', 'a', 'x', 'T', 'r', 'e', 'e', 's', '='] ++ ds)
      = none :=
    scan_none_of_no_head matchWhileAt 'w' matchWhileAt_none_of_head _ ds (by decide)
      (fun c hc => ne_of_digit_of_not (hdsd c hc) (by decide))
  have hforn : scan matchForAt (['m', 'a', 'x', 'T', 'r', 'e', 'e', 's', '='] ++ ds)
      = none :=
    scan_none_of_no_head matchForAt 'f' matchForAt_none_of_head _ ds (by decide)
      (fun c hc => ne_of_digit_of_not (hdsd c hc) (by decide))
  have hass : scan matchAssignAt (['m', 'a', 'x', 'T', 'r', 'e', 'e', 's', '='] ++ ds) =
      some (['m', 'a', 'x', 'T', 'r', 'e', 'e', 's'], ds) :=
    scan_eq_some_head _ _ _ (matchAssignAt_head ds hds hdsd)
  simp only [parseStudentCode, hstrip, hwhile, hforn, hass]

/-- A parse result whose limit exceeds the top performance tier gets exactly
the critical tier warning appended. -/
theorem addPerformanceWarnings_big (r : ParseResult) (n : Nat) (hr : r.limit = some n)
    (hn : 500 < n) :
    (addPerformanceWarnings r).warnings = r.warnings ++ [Diag.perfCritical] := by
  rcases n with _ | m
  · exact absurd hn (by decide)
  · simp only [addPerformanceWarnings, hr]
    rw [if_pos hn]

/-! ## C2 — extractor round-trip -/

/-- C2: every canonical accepted form round-trips — `while (treeCount < 50)`,
`while (treeCount <= 49)`, `while (50 > treeCount)`, `for (let i = 0; i < 50;
i++)` and `maxTrees = 50` all parse as valid with limit 50 — and in general
`IDENT < N` yields `N`, `IDENT <= N` yields `N + 1`, `N > IDENT` yields `N`,
and `N >= IDENT` yields `N + 1`. -/
theorem extractor_canonical_roundtrip (id ds : List Char) (hid : id ≠ [])
    (hidw : ∀ c ∈ id, isWordChar c = true) (hds : ds ≠ [])
    (hdsd : ∀ c ∈ ds, isDigitChar c = true) :
    ((parseStudentCode "while (treeCount < 50)".toList).valid = true ∧
      (parseStudentCode "while (treeCount < 50)".toList).limit = some 50) ∧
    ((parseStudentCode "while (treeCount <= 49)".toList).valid = true ∧
      (parseStudentCode "while (treeCount <= 49)".toList).limit = some 50) ∧
    ((parseStudentCode "while (50 > treeCount)".toList).valid = true ∧
      (parseStudentCode "while (50 > treeCount)".toList).limit = some 50) ∧
    ((parseStudentCode "for (let i = 0; i < 50; i++)".toList).valid = true ∧
      (parseStudentCode "for (let i = 0; i < 50; i++)".toList).limit = some 50) ∧
    ((parseStudentCode "maxTrees = 50".toList).valid = true ∧
      (parseStudentCode "maxTrees = 50".toList).limit = some 50) ∧
    extractLimitFromCondition (id ++ ' ' :: '<' :: ' ' :: ds) =
      some (digitsToNat ds) ∧
    extractLimitFromCondition (id ++ ' ' :: '<' :: '=' :: ' ' :: ds) =
      some (digitsToNat ds + 1) ∧
    extractLimitFromCondition (ds ++ ' ' :: '>' :: ' ' :: id) =
      some (digitsToNat ds) ∧
    extractLimitFromCondition (ds ++ ' ' :: '>' :: '=' :: ' ' :: id) =
      some (digitsToNat ds + 1) :=
  ⟨by decide, by decide, by decide, by decide, by decide,
    extract_id_lt id ds hid hidw hds hdsd,
    extract_id_le id ds hid hidw hds hdsd,
    extract_num_gt ds id hds hdsd hid hidw,
    extract_num_ge ds id hds hdsd hid hidw⟩

theorem extractor_canonical_roundtrip_witness :
    extractLimitFromCondition (['n'] ++ ' ' :: '<' :: ' ' :: ['7']) = some 7 :=
  (extractor_canonical_roundtrip ['n'] ['7'] (by decide) (by decide) (by decide)
    (by decide)).2.2.2.2.2.1

/-! ## C7 — clamping and the cap warning -/

/-- C7 counterexample: on the for path a numeral above the cap is clamped,
but no cap warning is emitted — the result is valid with limit 1000 and its
warnings contain neither the cap warning nor the safety-cap note (only the
performance tier warning). -/
theorem clamp_warning_missing_on_for_path :
    (parseStudentCode "for (let i = 0; i < 2000; i++)".toList).valid = true ∧
    (parseStudentCode "for (let i = 0; i < 2000; i++)".toList).limit =
      some maxTreeLimit ∧
    Diag.cappedForSafety ∉
      (parseStudentCode "for (let i = 0; i < 2000; i++)".toList).warnings ∧
    Diag.safetyCapNote ∉
      (parseStudentCode "for (let i = 0; i < 2000; i++)".toList).warnings ∧
    (parseStudentCode "for (let i = 0; i < 2000; i++)".toList).warnings =
      [Diag.perfCritical] := by
  decide

/-- C7 amended: any numeral above the cap is clamped to the cap on all three
paths — `while (IDENT < N)`, `for(i=0;i<N` and `maxTrees=N` for every digit
run `N` with value above 1000 — and `while (true)` gets the cap limit, the
infinite-loop error and the safety-cap note; but only the while path emits
the cap warning — the for and assignment paths clamp silently. -/
theorem extractor_clamp_amended (id ds : List Char) (hid : id ≠ [])
    (hidw : ∀ c ∈ id, isWordChar c = true) (hds : ds ≠ [])
    (hdsd : ∀ c ∈ ds, isDigitChar c = true)
    (hbig : maxTreeLimit < digitsToNat ds) :
    ((parseStudentCode
        ('w' :: 'h' :: 'i' :: 'l' :: 'e' :: ' ' :: '(' ::
          ((id ++ ' ' :: '<' :: ' ' :: ds) ++ [')']))).limit =
        some maxTreeLimit ∧
      Diag.cappedForSafety ∈
        (parseStudentCode
          ('w' :: 'h' :: 'i' :: 'l' :: 'e' :: ' ' :: '(' ::
            ((id ++ ' ' :: '<' :: ' ' :: ds) ++ [')']))).warnings) ∧
    ((parseStudentCode "while (true)".toList).limit = some maxTreeLimit ∧
      Diag.infiniteLoopError ∈
        (parseStudentCode "while (true)".toList).errors ∧
      Diag.safetyCapNote ∈
        (parseStudentCode "while (true)".toList).warnings) ∧
    ((parseStudentCode
        (['f', 'o', 'r', '(', 'i', '=', '0', ';', 'i', '<'] ++ ds)).limit =
        some maxTreeLimit ∧
      Diag.cappedForSafety ∉
        (parseStudentCode
          (['f', 'o', 'r', '(', 'i', '=', '0', ';', 'i', '<'] ++ ds)).warnings) ∧
    ((parseStudentCode
        (['m', 'a', 'x', 'T', 'r', 'e', 'e', 's', '='] ++ ds)).limit =
        some maxTreeLimit ∧
      Diag.cappedForSafety ∉
        (parseStudentCode
          (['m', 'a', 'x', 'T', 'r', 'e', 'e', 's', '='] ++ ds)).warnings) := by
  have hmin : min (digitsToNat ds) maxTreeLimit = maxTreeLimit :=
    Nat.min_eq_right (le_of_lt hbig)
  refine ⟨⟨?_, ?_⟩, by decide, ⟨?_, ?_⟩, ⟨?_, ?_⟩⟩
  · rw [parse_while_general id ds hid hidw hds hdsd, addPerformanceWarnings_limit]
    simp [hmin]
  · rw [parse_while_general id ds hid hidw hds hdsd]
    apply addPerformanceWarnings_warnings_mem
    simp [hbig]
  · rw [parse_for_general ds hds hdsd, addPerformanceWarnings_limit]
    simp [hmin]
  · rw [parse_for_general ds hds hdsd,
      addPerformanceWarnings_big _ maxTreeLimit (by simp [hmin]) (by decide)]
    simp
  · rw [parse_assign_general ds hds hdsd, addPerformanceWarnings_limit]
    simp [hmin]
  · rw [parse_assign_general ds hds hdsd,
      addPerformanceWarnings_big _ maxTreeLimit (by simp [hmin]) (by decide)]
    simp

theorem extractor_clamp_amended_witness :
    (parseStudentCode
      ('w' :: 'h' :: 'i' :: 'l' :: 'e' :: ' ' :: '(' ::
        ((['n'] ++ ' ' :: '<' :: ' ' :: ['2', '0', '0', '1']) ++ [')']))).limit =
      some maxTreeLimit :=
  (extractor_clamp_amended ['n'] ['2', '0', '0', '1'] (by decide) (by decide)
    (by decide) (by decide) (by decide)).1.1

theorem heap_unavailable_keeps_previous_value_witness :
    (sampleMetrics initProfilerState
      { elapsedPos := false, fps := 0, rendererInfo := none,
        heapMB := none }).metrics.memory = initProfilerState.metrics.memory
    ∧ (sampleMetrics initProfilerState
      { elapsedPos := false, fps := 0, rendererInfo := none,
        heapMB := none }).metrics.memory ≠ none :=
  ⟨heap_unavailable_keeps_previous_value.2.1 initProfilerState
      { elapsedPos := false, fps := 0, rendererInfo := none, heapMB := none } rfl,
    heap_unavailable_keeps_previous_value.2.2 initProfilerState
      { elapsedPos := false, fps := 0, rendererInfo := none, heapMB := none }
      (by rw [show initProfilerState.metrics.memory = some 0 from rfl]
          exact Option.some_ne_none 0)⟩

end Orbrya
